import Mathlib

/-!
Verification of the nms-companion search/summarization core.

The TypeScript source is shallowly embedded: strings are Lean `String`
(processed as `List Char`), JS numbers appearing in scores are modelled as
`ℝ` where the value can be irrational (the `Math.log10` engagement term)
and as `ℕ` where the code only ever adds small integers.  JS regex-based
`String.replace` calls are modelled by explicit left-to-right scans with
the same leftmost-match, continue-after-match semantics.
-/

namespace NMS

/-- ASCII lower-casing, the model of JS `toLowerCase` on the characters the
    code manipulates. -/
def lowerChar (c : Char) : Char :=
  if 'A' ≤ c ∧ c ≤ 'Z' then Char.ofNat (c.toNat + 32) else c

/-- The model of the JS regex class `\s` (ASCII part). -/
def isWsChar (c : Char) : Bool :=
  c = ' ' ∨ c = '\t' ∨ c = '\n' ∨ c = '\r' ∨ c = '\x0b' ∨ c = '\x0c'

def isLowerAlnum (c : Char) : Bool :=
  ('a' ≤ c ∧ c ≤ 'z') ∨ ('0' ≤ c ∧ c ≤ '9')

/-- Exact (case-sensitive) substring search: JS `String.includes`. -/
def listContains (p : List Char) : List Char → Bool
  | [] => p.isEmpty
  | c :: rest => p.isPrefixOf (c :: rest) || listContains p rest

/-- JS `hay.includes(sub)`. -/
def strIncludes (hay sub : String) : Bool :=
  listContains sub.data hay.data

/-- Case-insensitive occurrence of a (lower-case) pattern. -/
def hasOccCI (p : List Char) (s : List Char) : Bool :=
  listContains p (s.map lowerChar)

def httpPat : List Char := "http://".data
def httpsPat : List Char := "https://".data
def wwwPat : List Char := "www.".data

/-- A string field is free of outbound-URL substrings in the sense of the
    spec: no `http://`, `https://` or `www.` substring (case-insensitive). -/
def noUrlSub (s : String) : Prop :=
  hasOccCI httpPat s.data = false ∧ hasOccCI httpsPat s.data = false ∧
    hasOccCI wwwPat s.data = false

instance (s : String) : Decidable (noUrlSub s) := by
  unfold noUrlSub; infer_instance

/-- `startsBad p cs` holds when `cs` begins (case-insensitively) with the
    URL prefix `p` immediately followed by a non-whitespace character: the
    condition under which the live regex `(?:https?:\/\/|www\.)\S+` matches
    at the current scan position. -/
def startsBad (p : List Char) (cs : List Char) : Bool :=
  p.isPrefixOf (cs.map lowerChar) &&
    (match cs.drop p.length with
     | [] => false
     | c :: _ => !isWsChar c)

def badAt0 (cs : List Char) : Bool :=
  startsBad httpsPat cs || startsBad httpPat cs || startsBad wwwPat cs

/-- `hasBadUrl cs` : some position of `cs` starts a URL prefix followed by a
    non-whitespace character. -/
def hasBadUrl : List Char → Bool
  | [] => false
  | c :: rest => badAt0 (c :: rest) || hasBadUrl rest

theorem length_dropWhile_le (p : Char → Bool) (l : List Char) :
    (l.dropWhile p).length ≤ l.length := by
  induction l with
  | nil => simp [List.dropWhile]
  | cons c rest ih =>
    by_cases h : p c
    · simpa [List.dropWhile, h] using Nat.le_succ_of_le ih
    · simp [List.dropWhile, h]

theorem startsBad_head (p : List Char) (c : Char) (rest : List Char)
    (hp : p ≠ []) (h : startsBad p (c :: rest) = true) :
    lowerChar c = p.head hp := by
  rcases p with - | ⟨x, xs⟩
  · exact absurd rfl hp
  · unfold startsBad at h
    rw [Bool.and_eq_true] at h
    have h1 := h.1
    simp only [List.map_cons, List.isPrefixOf, Bool.and_eq_true, beq_iff_eq] at h1
    exact h1.1.symm

theorem badAt0_head_not_ws (c : Char) (rest : List Char)
    (h : badAt0 (c :: rest) = true) : isWsChar c = false := by
  have hc : lowerChar c = 'h' ∨ lowerChar c = 'w' := by
    have h' : (startsBad httpsPat (c :: rest) = true ∨
        startsBad httpPat (c :: rest) = true) ∨
        startsBad wwwPat (c :: rest) = true := by
      simpa [badAt0] using h
    rcases h' with (h3 | h4) | h2
    · exact Or.inl (startsBad_head httpsPat c rest (by decide) h3)
    · exact Or.inl (startsBad_head httpPat c rest (by decide) h4)
    · exact Or.inr (startsBad_head wwwPat c rest (by decide) h2)
  by_contra hw
  have hws : isWsChar c = true := by
    cases hcc : isWsChar c
    · exact absurd hcc hw
    · rfl
  have hlc : lowerChar c = c := by
    unfold lowerChar
    have : ¬('A' ≤ c ∧ c ≤ 'Z') := by
      rcases (by simpa [isWsChar] using hws :
        c = ' ' ∨ c = '\t' ∨ c = '\n' ∨ c = '\r' ∨ c = '\x0b' ∨ c = '\x0c') with
        h | h | h | h | h | h <;> subst h <;> decide
    simp [this]
  rw [hlc] at hc
  rcases hc with h | h <;> rw [h] at hws <;> simp [isWsChar] at hws

/-! ### Text normalizer (`normalizeForMatch`, `tokenize`) -/

/-- Whitespace-run collapsing: JS `.replace(/\s+/g, " ")`.  The scanners in
    this file recurse on a fuel argument (each step strictly shortens the
    list, so `fuel = length` always suffices) to keep them structurally
    recursive and hence kernel-reducible on concrete inputs. -/
def collapseWsGo : ℕ → List Char → List Char
  | _, [] => []
  | 0, l => l
  | fuel + 1, c :: rest =>
    if isWsChar c then ' ' :: collapseWsGo fuel (rest.dropWhile (fun x => isWsChar x))
    else c :: collapseWsGo fuel rest

def collapseWs (l : List Char) : List Char :=
  collapseWsGo l.length l

def trimWs (l : List Char) : List Char :=
  ((l.dropWhile (fun c => isWsChar c)).reverse.dropWhile (fun c => isWsChar c)).reverse

/-- The character map of `.replace(/[^a-z0-9\s]/g, " ")` (run after
    `toLowerCase`). -/
def classReplace (c : Char) : Char :=
  if isLowerAlnum c || isWsChar c then c else ' '

def normalizeList (l : List Char) : List Char :=
  trimWs (collapseWs ((l.map lowerChar).map classReplace))

/-- `normalizeForMatch` from both route files / `normalize` from the page:
    lower-case, replace non-alphanumerics by spaces, collapse whitespace,
    trim. -/
def normalizeForMatch (s : String) : String :=
  ⟨normalizeList s.data⟩

/-- JS `String.split(sep)` for a one-character separator. -/
def splitOnChar (sep : Char) : List Char → List (List Char)
  | [] => [[]]
  | c :: rest =>
    match splitOnChar sep rest with
    | [] => [[]]
    | s :: ss => if c = sep then [] :: s :: ss else (c :: s) :: ss

def splitSpace (l : List Char) : List (List Char) :=
  splitOnChar ' ' l

/-- Tokenizer of the curated route (no stemming). -/
def tokenizeCurated (value : String) : List String :=
  ((splitSpace (normalizeForMatch value).data).filter
      (fun t => 1 < t.length)).map (fun t => (⟨t⟩ : String))

def endsWithL (suffix l : List Char) : Bool :=
  suffix.reverse.isPrefixOf l.reverse

/-- The live route's naive suffix stemming. -/
def stemToken (t : List Char) : List Char :=
  if 4 < t.length ∧ endsWithL "es".data t = true then t.take (t.length - 2)
  else if 3 < t.length ∧ endsWithL "s".data t = true then t.take (t.length - 1)
  else t

/-- Tokenizer of the live route (with stemming). -/
def tokenizeLive (value : String) : List String :=
  ((splitSpace (normalizeForMatch value).data).filter
      (fun t => 1 < t.length)).map (fun t => (⟨stemToken t⟩ : String))

/-! ### Link stripper (`stripExternalLinks`) and text cleaner -/

def expectChar (c : Char) : List Char → Option (List Char)
  | x :: rest => if x = c then some rest else none
  | [] => none

/-- One-or-more characters satisfying `p`, greedily: regex `[^x]+`. -/
def takeSome (p : Char → Bool) (cs : List Char) : Option (List Char) :=
  if (cs.takeWhile p).isEmpty then none else some (cs.dropWhile p)

/-- The alternation `(?:https?:\/\/|www\.)` (case-insensitive). -/
def urlPrefixAfter (cs : List Char) : Option (List Char) :=
  if httpsPat.isPrefixOf (cs.map lowerChar) then some (cs.drop httpsPat.length)
  else if httpPat.isPrefixOf (cs.map lowerChar) then some (cs.drop httpPat.length)
  else if wwwPat.isPrefixOf (cs.map lowerChar) then some (cs.drop wwwPat.length)
  else none

/-- Match of `\[[^\]]+\]\((?:https?:\/\/|www\.)[^)]+\)` at the current
    position, returning the remainder after the match. -/
def mdMatchAt (cs : List Char) : Option (List Char) :=
  (expectChar '[' cs).bind fun r1 =>
  (takeSome (fun c => c ≠ ']') r1).bind fun r2 =>
  (expectChar ']' r2).bind fun r3 =>
  (expectChar '(' r3).bind fun r4 =>
  (urlPrefixAfter r4).bind fun r5 =>
  (takeSome (fun c => c ≠ ')') r5).bind fun r6 =>
  (expectChar ')' r6)

theorem expectChar_length {c : Char} {cs r : List Char}
    (h : expectChar c cs = some r) : r.length < cs.length := by
  rcases cs with - | ⟨x, rest⟩
  · simp [expectChar] at h
  · by_cases hx : x = c
    · simp only [expectChar, if_pos hx, Option.some.injEq] at h
      simp [← h]
    · simp [expectChar, hx] at h

theorem takeSome_length {p : Char → Bool} {cs r : List Char}
    (h : takeSome p cs = some r) : r.length ≤ cs.length := by
  unfold takeSome at h
  by_cases he : (cs.takeWhile p).isEmpty
  · simp [he] at h
  · simp only [he, if_neg, Option.some.injEq, Bool.false_eq_true,
      not_false_eq_true] at h
    exact h ▸ length_dropWhile_le p cs

theorem urlPrefixAfter_length {cs r : List Char}
    (h : urlPrefixAfter cs = some r) : r.length ≤ cs.length := by
  unfold urlPrefixAfter at h
  split at h
  · simp only [Option.some.injEq] at h
    subst h; rw [List.length_drop]; exact Nat.sub_le _ _
  · split at h
    · simp only [Option.some.injEq] at h
      subst h; rw [List.length_drop]; exact Nat.sub_le _ _
    · split at h
      · simp only [Option.some.injEq] at h
        subst h; rw [List.length_drop]; exact Nat.sub_le _ _
      · simp at h

theorem mdMatchAt_length {cs r : List Char}
    (h : mdMatchAt cs = some r) : r.length < cs.length := by
  unfold mdMatchAt at h
  simp only [Option.bind_eq_some] at h
  obtain ⟨r1, h1, r2, h2, r3, h3, r4, h4, r5, h5, r6, h6, h7⟩ := h
  have e1 := expectChar_length h1
  have e2 := takeSome_length h2
  have e3 := expectChar_length h3
  have e4 := expectChar_length h4
  have e5 := urlPrefixAfter_length h5
  have e6 := takeSome_length h6
  have e7 := expectChar_length h7
  omega

/-- `.replace(/\[[^\]]+\]\((?:https?:\/\/|www\.)[^)]+\)/gi, "")`:
    left-to-right scan, removing each leftmost match and continuing after
    it (`mdMatchAt_length` shows each step shortens the list, so the length
    fuel suffices). -/
def stripMdGo : ℕ → List Char → List Char
  | _, [] => []
  | 0, l => l
  | fuel + 1, c :: rest =>
    match mdMatchAt (c :: rest) with
    | some after => stripMdGo fuel after
    | none => c :: stripMdGo fuel rest

def stripMd (l : List Char) : List Char :=
  stripMdGo l.length l

/-- `.replace(/(?:https?:\/\/|www\.)\S+/gi, "")`: at a position where a URL
    prefix is followed by at least one non-whitespace character the regex
    consumes the prefix plus the maximal non-whitespace run, which is the
    whole non-whitespace run starting at the position. -/
def stripBareGo : ℕ → List Char → List Char
  | _, [] => []
  | 0, l => l
  | fuel + 1, c :: rest =>
    if badAt0 (c :: rest) = true then
      stripBareGo fuel ((c :: rest).dropWhile (fun x => !isWsChar x))
    else c :: stripBareGo fuel rest

def stripBare (l : List Char) : List Char :=
  stripBareGo l.length l

def stripExternalLinksL (l : List Char) : List Char :=
  trimWs (collapseWs (stripBare (stripMd l)))

/-- `stripExternalLinks` from the live route. -/
def stripExternalLinks (s : String) : String :=
  ⟨stripExternalLinksL s.data⟩

/-- `.replace(/&amp;/g, "&")`. -/
def replaceAmpGo : ℕ → List Char → List Char
  | _, [] => []
  | 0, l => l
  | fuel + 1, c :: rest =>
    if "&amp;".data.isPrefixOf (c :: rest) then
      '&' :: replaceAmpGo fuel ((c :: rest).drop 5)
    else c :: replaceAmpGo fuel rest

def replaceAmp (l : List Char) : List Char :=
  replaceAmpGo l.length l

def isMarkupChar (c : Char) : Bool :=
  c = '*' ∨ c = '_' ∨ c = '\x60' ∨ c = '>' ∨ c = '#' ∨ c = '~'

/-- `.replace(/[*_\x60>#~]+/g, "")`. -/
def dropMarkup (l : List Char) : List Char :=
  l.filter (fun c => !isMarkupChar c)

/-- `.replace(/\s*\n\s*/g, " ")`: a maximal whitespace run containing a
    newline collapses to a single space; other runs are untouched. -/
def replaceNlRunsGo : ℕ → List Char → List Char
  | _, [] => []
  | 0, l => l
  | fuel + 1, c :: rest =>
    if isWsChar c then
      (if ((c :: rest).takeWhile (fun x => isWsChar x)).contains '\n' then [' ']
       else (c :: rest).takeWhile (fun x => isWsChar x)) ++
        replaceNlRunsGo fuel (rest.dropWhile (fun x => isWsChar x))
    else c :: replaceNlRunsGo fuel rest

def replaceNlRuns (l : List Char) : List Char :=
  replaceNlRunsGo l.length l

def cleanTextL (l : List Char) : List Char :=
  trimWs (collapseWs (replaceNlRuns (dropMarkup (replaceAmp (stripExternalLinksL l)))))

/-- `cleanText` from the live route. -/
def cleanText (s : String) : String :=
  ⟨cleanTextL s.data⟩

/-- `.replace(/[|]+/g, " ")`. -/
def pipeRunsGo : ℕ → List Char → List Char
  | _, [] => []
  | 0, l => l
  | fuel + 1, c :: rest =>
    if c = '|' then ' ' :: pipeRunsGo fuel (rest.dropWhile (fun x => x = '|'))
    else c :: pipeRunsGo fuel rest

def pipeRuns (l : List Char) : List Char :=
  pipeRunsGo l.length l

def isDashChar (c : Char) : Bool :=
  c = '-' ∨ c = '–' ∨ c = '—'

/-- `.replace(/\s*[-–—]{2,}\s*/g, " - ")`. -/
def dashRunsGo : ℕ → List Char → List Char
  | _, [] => []
  | 0, l => l
  | fuel + 1, c :: rest =>
    if 2 ≤ (((c :: rest).dropWhile (fun x => isWsChar x)).takeWhile
        (fun x => isDashChar x)).length then
      ' ' :: '-' :: ' ' ::
        dashRunsGo fuel ((((c :: rest).dropWhile (fun x => isWsChar x)).dropWhile
          (fun x => isDashChar x)).dropWhile (fun x => isWsChar x))
    else c :: dashRunsGo fuel rest

def dashRuns (l : List Char) : List Char :=
  dashRunsGo l.length l

def isPunctRep (c : Char) : Bool :=
  c = '!' ∨ c = '?' ∨ c = '.' ∨ c = ','

/-- `.replace(/([!?.,])\1{1,}/g, "$1")`. -/
def punctRepeatGo : ℕ → List Char → List Char
  | _, [] => []
  | 0, l => l
  | fuel + 1, c :: rest =>
    if isPunctRep c then c :: punctRepeatGo fuel (rest.dropWhile (fun x => x = c))
    else c :: punctRepeatGo fuel rest

def punctRepeat (l : List Char) : List Char :=
  punctRepeatGo l.length l

def isPunctWide (c : Char) : Bool :=
  c = '!' ∨ c = '?' ∨ c = '.' ∨ c = ',' ∨ c = ';' ∨ c = ':'

/-- `.replace(/\s+([!?.,;:])/g, "$1")`. -/
def wsBeforePunctGo : ℕ → List Char → List Char
  | _, [] => []
  | 0, l => l
  | fuel + 1, c :: rest =>
    if isWsChar c then
      match (c :: rest).dropWhile (fun x => isWsChar x) with
      | p :: after2 =>
        if isPunctWide p then p :: wsBeforePunctGo fuel after2
        else ((c :: rest).takeWhile (fun x => isWsChar x)) ++
          wsBeforePunctGo fuel (p :: after2)
      | [] => (c :: rest).takeWhile (fun x => isWsChar x)
    else c :: wsBeforePunctGo fuel rest

def wsBeforePunct (l : List Char) : List Char :=
  wsBeforePunctGo l.length l

def polishSentenceL (l : List Char) : List Char :=
  trimWs (collapseWs (wsBeforePunct (punctRepeat (dashRuns (pipeRuns (cleanTextL l))))))

/-- `polishSentence` from the live route. -/
def polishSentence (s : String) : String :=
  ⟨polishSentenceL s.data⟩

def isTermChar (c : Char) : Bool :=
  c = '.' ∨ c = '!' ∨ c = '?'

/-- `.split(/(?<=[.!?])\s+/)`: cut at whitespace runs preceded by a
    sentence-terminal mark. -/
def splitTermFuel : ℕ → List Char → List Char → List (List Char)
  | _, acc, [] => [acc.reverse]
  | 0, acc, l => [acc.reverse ++ l]
  | fuel + 1, acc, c :: rest =>
    if isTermChar c && (match rest with | r :: _ => isWsChar r | [] => false) then
      (c :: acc).reverse :: splitTermFuel fuel [] (rest.dropWhile (fun x => isWsChar x))
    else splitTermFuel fuel (c :: acc) rest

def splitTermGo (acc : List Char) (l : List Char) : List (List Char) :=
  splitTermFuel l.length acc l

/-- `splitSentences` from the live route. -/
def splitSentences (s : String) : List String :=
  (((splitTermGo [] (polishSentence s).data).map polishSentenceL).filter
      (fun t => 0 < t.length)).map (fun t => (⟨t⟩ : String))

/-! ### Data model -/

inductive SearchType
  | howto
  | whereMode
deriving DecidableEq

structure VideoSegment where
  label : String
  detail : String
deriving DecidableEq

/-- `VideoClip` (the constant discriminator `mode: "storyboard"` is
    omitted). -/
structure VideoClip where
  title : String
  note : String
  segments : List VideoSegment
deriving DecidableEq

structure FaqItem where
  question : String
  answer : String
deriving DecidableEq

structure KnowledgeEntry where
  id : String
  title : String
  aliases : List String
  whereToFind : String
  howToUse : String
  tips : List String
  references : List String
  redditNotes : List String
  faq : List FaqItem
  video : Option VideoClip := none
deriving DecidableEq

structure SearchResult where
  id : String
  title : String
  summary : String
  details : String
  source : String
  references : List String
  redditNotes : List String
  faq : List FaqItem
  video : Option VideoClip := none
deriving DecidableEq

def LOCAL_KNOWLEDGE : List KnowledgeEntry := [
  { id := "radiant-heart",
    title := "Radiant Heart",
    aliases := ["radiant heart", "radiant hearts", "sentinel heart"],
    whereToFind := "Radiant Hearts are commonly earned from Sentinel combat loops, especially in corrupted zones and high-alert Sentinel areas.",
    howToUse := "Used in advanced crafting and upgrade paths tied to Sentinel-related technology and high-tier progression components.",
    tips := [
      "Use a Sentinel Pillar area as a repeatable combat route.",
      "Carry ammo and shield recharge so you can farm multiple waves in one run.",
      "Deposit rare drops often if inventory is tight."],
    references := ["No Man\u0027s Sky Wiki (internal summary)", "Community route notes (internal summary)"],
    redditNotes := [
      "Players often report best drop consistency from sustained Sentinel wave clears.",
      "Many community routes pair Sentinel farms with nearby salvage stops."],
    faq := [
      { question := "What is the fastest way to farm Radiant Hearts?",
        answer := "A strong loop is repeating Sentinel wave combat near a Pillar, collecting drops, then resetting at another hotspot." },
      { question := "Do I need a specific biome for Radiant Hearts?",
        answer := "Not strictly, but corrupted or high-Sentinel-pressure zones usually feel most consistent." }],
    video := some
      { title := "Sentinel farming route example",
        note := "In-app storyboard guide. No external video service required.",
        segments := [
          { label := "00:00 - Prep",
            detail := "Land near a Sentinel Pillar, reload ammo, and verify shield recharge supply." },
          { label := "00:40 - Trigger",
            detail := "Start Sentinel engagement and maintain line-of-sight control instead of over-chasing." },
          { label := "01:30 - Collect",
            detail := "Sweep drops between waves and keep one free inventory row for fast looting." },
          { label := "02:20 - Reset Loop",
            detail := "Move to the next nearby hotspot and repeat for consistent Radiant Heart farming." }] } },
  { id := "living-glass",
    title := "Living Glass",
    aliases := ["living glass", "lg", "farm income"],
    whereToFind := "Living Glass is usually crafted from plant-chain materials rather than found as a frequent raw pickup.",
    howToUse := "Useful as a reliable mid-game money craft and for select blueprint requirements.",
    tips := [
      "Automate farm ingredients with biodomes or hydroponics.",
      "Craft in batches after each harvest cycle.",
      "Keep a dedicated storage tab for farm chain materials."],
    references := ["No Man\u0027s Sky crafting chain notes (internal summary)"],
    redditNotes := [
      "Community posts frequently suggest Living Glass as a safe early passive income path."],
    faq := [
      { question := "Is Living Glass better than random loot selling?",
        answer := "For many players, yes. A stable farm chain can outperform random loot runs in consistency." }],
    video := some
      { title := "Living Glass farm layout walkthrough",
        note := "In-app storyboard guide. No external video service required.",
        segments := [
          { label := "00:00 - Base Layout",
            detail := "Place biodomes/hydroponics in a tight loop near refiners and storage." },
          { label := "00:45 - Crop Balance",
            detail := "Balance ingredient crops by bottleneck material rather than equal count." },
          { label := "01:20 - Batch Craft",
            detail := "Harvest all, craft components first, then final Living Glass in one pass." }] } },
  { id := "oxygen",
    title := "Oxygen",
    aliases := ["oxygen", "o2", "life support"],
    whereToFind := "Gather from oxygen-rich flora, gas hotspots, and occasional market supply.",
    howToUse := "Core utility resource for life support and several refining chains.",
    tips := [
      "Set up an oxygen extractor base as early infrastructure.",
      "Carry backup oxygen stacks before long expeditions."],
    references := ["Resource gathering notes (internal summary)"],
    redditNotes := ["Players commonly prioritize oxygen extraction as an early QoL base."],
    faq := [
      { question := "Should I buy oxygen or farm it?",
        answer := "Buying is fine short-term, but farming becomes more efficient once your base is established." }] },
  { id := "sodium",
    title := "Sodium",
    aliases := ["sodium", "hazard protection", "yellow plants"],
    whereToFind := "Readily harvested from yellow flora on many planets and sometimes purchased at stations or pilots.",
    howToUse := "Primary hazard protection refill material.",
    tips := [
      "Keep one dedicated sodium stack in exosuit inventory at all times.",
      "Convert to Sodium Nitrate when needed for stronger refills."],
    references := ["Survival resource notes (internal summary)"],
    redditNotes := ["New-player guides repeatedly emphasize sodium as top-priority carry material."],
    faq := [
      { question := "How much sodium should I carry?",
        answer := "At least one full stack for exploration-heavy sessions, more for harsh biomes." }] },
  { id := "salvaged-data",
    title := "Salvaged Data",
    aliases := ["salvaged data", "technology modules", "buried tech"],
    whereToFind := "Dig up buried technology modules using the Analysis Visor and Terrain Manipulator.",
    howToUse := "Spent at the Space Anomaly construction terminal to unlock base parts and tech.",
    tips := [
      "Scan while moving in a wide loop to chain buried tech finds quickly.",
      "Prioritize unlocks that improve power, storage, and farming first."],
    references := ["Base progression notes (internal summary)"],
    redditNotes := ["Community consensus: early Salvaged Data routes accelerate base progression heavily."],
    faq := [
      { question := "What should I unlock first with Salvaged Data?",
        answer := "Most players prioritize power generation, storage, and farming modules first." }] },
  { id := "nanites",
    title := "Nanites",
    aliases := ["nanites", "nanite clusters", "upgrade currency"],
    whereToFind := "Earned from scanning, missions, refining loops, and selling discovered data sources.",
    howToUse := "Main currency for tech upgrades and class improvements.",
    tips := [
      "Stack mission board tasks that reward nanites.",
      "Use steady micro-loops instead of waiting for one big source."],
    references := ["Upgrade currency notes (internal summary)"],
    redditNotes := ["Frequent player advice is to combine mission rewards with refining side loops."],
    faq := [
      { question := "What is a beginner-friendly nanite loop?",
        answer := "Combine station missions with fast scan/refine cycles so progress continues while traveling." }] }]

/-! ### Curated route (local knowledge scorer and card builders) -/

def joinSep (sep : String) : List String → String
  | [] => ""
  | [s] => s
  | s :: rest => s ++ sep ++ joinSep sep rest

/-- `scoreEntry` from the curated route. -/
def scoreEntry (entry : KnowledgeEntry) (query : String) : ℕ :=
  let normalizedQuery := normalizeForMatch query
  let queryTokens := tokenizeCurated query
  let titleScore := if normalizeForMatch entry.title = normalizedQuery then 120 else 0
  let aliasScore := (entry.aliases.map (fun aliasPhrase =>
    if strIncludes normalizedQuery (normalizeForMatch aliasPhrase) then 80 else 0)).sum
  let searchable := entry.title ++ " " ++ joinSep " " entry.aliases ++ " " ++
    entry.whereToFind ++ " " ++ entry.howToUse ++ " " ++ joinSep " " entry.tips
  let searchableTokens := tokenizeCurated searchable
  titleScore + aliasScore +
    12 * queryTokens.countP (fun token => searchableTokens.contains token)

/-- `toSearchResult` from the curated route. -/
def toSearchResult (entry : KnowledgeEntry) (type : SearchType) : SearchResult :=
  let summary := if type = SearchType.whereMode then entry.whereToFind else entry.howToUse
  let details := joinSep "\n" ([
    "Where to find: " ++ entry.whereToFind,
    "How to use: " ++ entry.howToUse,
    "Tips:"] ++ entry.tips.map (fun tip => "- " ++ tip))
  { id := entry.id
    title := entry.title
    summary := summary
    details := details
    source := "NMS Local KB"
    references := entry.references
    redditNotes := entry.redditNotes
    faq := entry.faq
    video := entry.video }

/-- `${normalizeForMatch(query).replace(/\s+/g, "-") || "query"}`: the
    normalized query is already whitespace-collapsed, so the dash
    substitution maps each single space to `-`. -/
def dashedQuery (query : String) : String :=
  let dashed : List Char :=
    (normalizeForMatch query).data.map (fun c => if isWsChar c then '-' else c)
  if dashed.isEmpty then "query" else ⟨dashed⟩

/-- `buildNoMatchResult` from the curated (local-only) route. -/
def buildNoMatchResultLocal (query : String) (type : SearchType) : SearchResult :=
  let modeLabel := if type = SearchType.whereMode then "where-to-find" else "how-to"
  { id := "no-match-" ++ dashedQuery query
    title := "No exact local match for \"" ++ query ++ "\" yet"
    summary := "Try a shorter name, singular form, or a nearby material/blueprint term."
    details := joinSep "\n" [
      "The app is in local-only mode, so it only searches built-in data.",
      "Mode used: " ++ modeLabel ++ ".",
      "Suggested next tries:",
      "- Remove extra words (example: use \"radiant heart\" instead of full sentence).",
      "- Search by ingredient or output item.",
      "- Ask a follow-up question in this card so the app can guide alternatives."]
    source := "NMS Local KB"
    references := ["Local knowledge base only"]
    redditNotes := ["Reddit references are summarized in-app only; no outbound links are provided."]
    faq := [
      { question := "Can I still use Reddit info without opening Reddit?",
        answer := "Yes. The app can include summarized Reddit-derived notes inside result details." }] }

/-- The candidate selection of the curated route's `GET` handler:
    score, keep positive, stable-sort descending, take 8. -/
def curatedSelect (query : String) : List KnowledgeEntry :=
  (((LOCAL_KNOWLEDGE.map (fun entry => (entry, scoreEntry entry query))).filter
      (fun item => 0 < item.2)).insertionSort
      (fun left right => right.2 ≤ left.2)).take 8 |>.map Prod.fst

/-- The curated route's result list: scored cards, or the no-match card. -/
def curatedResults (query : String) (type : SearchType) : List SearchResult :=
  let scored := (curatedSelect query).map (fun entry => toSearchResult entry type)
  if scored.isEmpty then [buildNoMatchResultLocal query type] else scored

/-! ### Live route (scorer, coverage filter, dedup, card builder) -/

def MODE_KEYWORDS : SearchType → List String
  | .howto => ["how", "craft", "build", "farm", "route", "method", "loop",
      "efficient", "best", "guide"]
  | .whereMode => ["where", "find", "location", "planet", "system", "station",
      "spawn", "drop", "vendor"]

def META_TITLE_KEYWORDS : List String :=
  ["expedition", "update", "review", "screenshot", "photo", "showcase",
   "trailer", "impressions"]

/-- A fragment of the Reddit listing payload (`children[..].data`). -/
structure RedditPost where
  id : Option String := none
  title : Option String := none
  selftext : Option String := none
  subreddit_name_prefixed : Option String := none
  author : Option String := none
  score : Option Int := none
  num_comments : Option Int := none
deriving DecidableEq

/-- `countTokenOverlap` from the live route. -/
def countTokenOverlap (text : String) (queryTokens : List String) : ℕ :=
  if queryTokens.isEmpty then 0
  else queryTokens.countP (fun token => (tokenizeLive text).contains token)

/-- `countKeywordHits` from the live route. -/
def countKeywordHits (text : String) (keywords : List String) : ℕ :=
  if keywords.isEmpty then 0
  else keywords.countP (fun token => (tokenizeLive text).contains token)

/-- `hasNmsContext` from the live route. -/
def hasNmsContext (post : RedditPost) : Bool :=
  let context := normalizeForMatch ((post.title.getD "") ++ " " ++
    (post.selftext.getD "") ++ " " ++ (post.subreddit_name_prefixed.getD ""))
  ["no man s sky", "nomanssky", "nms", "anomaly", "sentinel", "atlas"].any
    (fun keyword => strIncludes context keyword)

/-- `scoreRedditPost` from the live route; JS numbers over `ℝ`, `Math.log10`
    as `Real.logb 10` (note the source computes `Math.max(.., 1)`). -/
noncomputable def scoreRedditPost (post : RedditPost) (queryTokens : List String)
    (type : SearchType) : ℝ :=
  let title := cleanText (post.title.getD "")
  let body := cleanText (post.selftext.getD "")
  let overlapInTitle := countTokenOverlap title queryTokens
  let overlapInBody := countTokenOverlap body queryTokens
  let modeHitInTitle := countKeywordHits title (MODE_KEYWORDS type)
  let modeHitInBody := countKeywordHits body (MODE_KEYWORDS type)
  let engagement : ℝ :=
    Real.logb 10 (((max ((post.score.getD 0) + (post.num_comments.getD 0)) 1 : ℤ) : ℝ) + 1)
  let hasBody : ℝ := if 60 ≤ body.length then 1 else 0
  let nmsBoost : ℝ := if hasNmsContext post then 2 else 0
  let metaHits := countKeywordHits title META_TITLE_KEYWORDS
  let queryLooksMeta := queryTokens.any (fun token => META_TITLE_KEYWORDS.contains token)
  let metaPenalty : ℝ := if 0 < metaHits ∧ queryLooksMeta = false then 4 else 0
  (overlapInTitle : ℝ) * 10 + (overlapInBody : ℝ) * 4 + (modeHitInTitle : ℝ) * 3 +
    (modeHitInBody : ℝ) * 1.5 + engagement * 2 + hasBody + nmsBoost - metaPenalty

/-- The quality-score formula exactly as the specification words it
    (engagement bonus `log10(max(post.score + post.comments, 0) + 1) × 2`),
    for comparison with `scoreRedditPost`. -/
noncomputable def specScoreRedditPost (post : RedditPost) (queryTokens : List String)
    (type : SearchType) : ℝ :=
  let title := cleanText (post.title.getD "")
  let body := cleanText (post.selftext.getD "")
  let overlapInTitle := countTokenOverlap title queryTokens
  let overlapInBody := countTokenOverlap body queryTokens
  let modeHitInTitle := countKeywordHits title (MODE_KEYWORDS type)
  let modeHitInBody := countKeywordHits body (MODE_KEYWORDS type)
  let engagement : ℝ :=
    Real.logb 10 (((max ((post.score.getD 0) + (post.num_comments.getD 0)) 0 : ℤ) : ℝ) + 1)
  let hasBody : ℝ := if 60 ≤ body.length then 1 else 0
  let nmsBoost : ℝ := if hasNmsContext post then 2 else 0
  let metaHits := countKeywordHits title META_TITLE_KEYWORDS
  let queryLooksMeta := queryTokens.any (fun token => META_TITLE_KEYWORDS.contains token)
  let metaPenalty : ℝ := if 0 < metaHits ∧ queryLooksMeta = false then 4 else 0
  (overlapInTitle : ℝ) * 10 + (overlapInBody : ℝ) * 4 + (modeHitInTitle : ℝ) * 3 +
    (modeHitInBody : ℝ) * 1.5 + engagement * 2 + hasBody + nmsBoost - metaPenalty

/-- `pickBestSentences`'s sentence score: one point per keyword group with
    any member present in the normalized sentence. -/
def sentenceScore (keywordGroups : List (List String)) (sentence : String) : ℕ :=
  keywordGroups.countP (fun group =>
    group.any (fun keyword => strIncludes (normalizeForMatch sentence) keyword))

/-- JS `Array.filter` with the element index. -/
def filterIdx {α : Type} (p : α → ℕ → Bool) : ℕ → List α → List α
  | _, [] => []
  | i, x :: xs => if p x i then x :: filterIdx p (i + 1) xs else filterIdx p (i + 1) xs

/-- `pickBestSentences` from the live route (JS `Array.sort` is stable;
    `insertionSort` with `b.2 ≤ a.2` places earlier elements first on
    ties). -/
def pickBestSentences (sentences : List String) (keywordGroups : List (List String))
    (fallback : String) (count : ℕ) : List String :=
  let ranked :=
    ((filterIdx (fun item index => decide (0 < item.2) || decide (index < count)) 0
      ((sentences.map (fun s => (s, sentenceScore keywordGroups s))).insertionSort
        (fun a b => b.2 ≤ a.2))).take count).map Prod.fst
  if ranked.isEmpty then [fallback] else ranked

/-- `sanitizeTitle` from the live route. -/
def sanitizeTitle (value query : String) : String :=
  let cleaned := polishSentence value
  if 0 < cleaned.length then cleaned else "Community result for " ++ query

def whereGroups : List (List String) :=
  [["where", "find", "found", "location", "planet", "system", "station", "biome"],
   ["farm", "drop", "spawn", "sentinel", "anomaly", "vendor", "market"]]

def whereFallback : String :=
  "Community reports suggest checking mission hubs, planets matching the resource biome, and station trade loops."

def howGroups : List (List String) :=
  [["how", "use", "craft", "build", "route", "method", "loop"],
   ["tip", "best", "fast", "efficient", "priority", "upgrade"]]

def howFallback : String :=
  "Community advice generally favors repeatable loops, inventory prep, and stacking compatible mission objectives."

def tipGroups : List (List String) :=
  [["tip", "best", "fast", "efficient", "carry", "stack", "prioritize", "avoid"]]

def tipFallback : String :=
  "Keep route loops short and inventory space ready for faster farming cycles."

/-- `toSearchResultFromReddit` from the live route. -/
def toSearchResultFromReddit (post : RedditPost) (query : String)
    (type : SearchType) : SearchResult :=
  let title := sanitizeTitle (post.title.getD "") query
  let body := polishSentence (post.selftext.getD "")
  let allText := polishSentence (title ++ ". " ++ body)
  let sentences := splitSentences allText
  let whereLines := pickBestSentences sentences whereGroups whereFallback 2
  let howLines := pickBestSentences sentences howGroups howFallback 2
  let tipCandidates := pickBestSentences sentences tipGroups tipFallback 3
  let summary := polishSentence
    (if type = SearchType.whereMode then whereLines.headD "" else howLines.headD "")
  let details := joinSep "\n" ([
    "Where to find: " ++ joinSep " " whereLines,
    "How to use: " ++ joinSep " " howLines,
    "Tips:"] ++ tipCandidates.map (fun tip => "- " ++ polishSentence tip))
  let subreddit :=
    let c := cleanText (post.subreddit_name_prefixed.getD "r/NoMansSkyTheGame")
    if c.length = 0 then "r/NoMansSkyTheGame" else c
  let author := cleanText (post.author.getD "unknown")
  let score := post.score.getD 0
  let comments := post.num_comments.getD 0
  { id := "reddit-" ++
      (match post.id with
       | some postId => postId
       | none =>
         (⟨(normalizeForMatch title).data.map
            (fun c => if isWsChar c then '-' else c)⟩ : String))
    title := title
    summary := summary
    details := details
    source := "Live Community Search"
    references := [
      "Source set: Reddit live snapshot",
      "Forum: " ++ subreddit,
      "Engagement: score " ++ toString score ++ ", comments " ++ toString comments]
    redditNotes := [
      "Author: u/" ++ author,
      "External URLs are intentionally removed from this app output."]
    faq := [
      { question := "How current is this guidance for " ++ query ++ "?",
        answer := "It is compiled from live community posts at request time and summarized in-app without outbound links." }] }

/-- `buildNoMatchResult` from the live route. -/
def buildNoMatchResultLive (query : String) (type : SearchType) : SearchResult :=
  let modeLabel := if type = SearchType.whereMode then "where-to-find" else "how-to"
  { id := "no-match-" ++ dashedQuery query
    title := "No live community match for \"" ++ query ++ "\" yet"
    summary := "Try fewer words, singular terms, or the base material/item name."
    details := joinSep "\n" [
      "Live search returned no strong match in this pass.",
      "Mode used: " ++ modeLabel ++ ".",
      "Suggested next tries:",
      "- Use a compact term (example: \"radiant heart\" instead of full sentence).",
      "- Try item, then process (example: nanites, then nanite farm).",
      "- Ask a follow-up in this card and refine step-by-step."]
    source := "Live Community Search"
    references := ["Live snapshot only"]
    redditNotes := ["Community data may be available on retry; all external links are removed by design."]
    faq := [
      { question := "Can this still use Reddit data without links?",
        answer := "Yes. Results can include Reddit-derived summaries while hiding outbound URLs." }] }

/-- The per-candidate record built by the live `GET` handler. -/
structure ScoredPost where
  post : RedditPost
  qualityScore : ℝ
  overlapTitle : ℕ
  overlap : ℕ

noncomputable def scoreLivePost (queryTokens : List String) (type : SearchType)
    (post : RedditPost) : ScoredPost :=
  { post := post
    qualityScore := scoreRedditPost post queryTokens type
    overlapTitle := countTokenOverlap (post.title.getD "") queryTokens
    overlap := countTokenOverlap ((post.title.getD "") ++ " " ++ (post.selftext.getD ""))
      queryTokens }

/-- `Math.max(1, Math.ceil(queryTokens.length * 0.5))`; for a natural `n`,
    `ceil(n * 0.5) = (n + 1) / 2` in integer division. -/
def minCoverage (tokenCount : ℕ) : ℕ :=
  max 1 ((tokenCount + 1) / 2)

/-- The admission filter of the live `GET` handler (lines 701-717). -/
noncomputable def admitsPost (queryTokens : List String) (item : ScoredPost) : Bool :=
  if queryTokens.length = 0 then true
  else
    let minCov := minCoverage queryTokens.length
    let hasStrongCoverage := decide (minCov ≤ item.overlap)
    let hasTitleHit := decide (1 ≤ item.overlapTitle)
    let hasUsefulSignal := decide ((7 : ℝ) ≤ item.qualityScore)
    if queryTokens.length = 1 then hasTitleHit && hasUsefulSignal
    else
      let hasTitleOrVeryStrongBody := hasTitleHit || decide (minCov + 1 ≤ item.overlap)
      hasStrongCoverage && hasTitleOrVeryStrongBody && hasUsefulSignal && hasTitleHit

def normTitle (item : ScoredPost) : String :=
  normalizeForMatch (item.post.title.getD "")

/-- The dedup predicate of the live `GET` handler: an empty normalized title
    is kept only at sorted index 0; otherwise keep the first occurrence of
    the normalized title in the sorted array. -/
def keepInDedup (all : List ScoredPost) (index : ℕ) (item : ScoredPost) : Bool :=
  let normalizedTitle := normTitle item
  if normalizedTitle.length = 0 then decide (index = 0)
  else decide (all.findIdx (fun entry => decide (normTitle entry = normalizedTitle)) = index)

def dedupGo (all : List ScoredPost) : ℕ → List ScoredPost → List ScoredPost
  | _, [] => []
  | i, x :: xs =>
    if keepInDedup all i x then x :: dedupGo all (i + 1) xs
    else dedupGo all (i + 1) xs

/-- Sort descending by quality score (stable) and deduplicate by normalized
    title against the sorted array, as in lines 718-726. -/
noncomputable def sortDedup (items : List ScoredPost) : List ScoredPost :=
  let sorted := items.insertionSort (fun left right => right.qualityScore ≤ left.qualityScore)
  dedupGo sorted 0 sorted

/-- `dedupedRanked.slice(0, 8)`. -/
noncomputable def liveSelect (items : List ScoredPost) : List ScoredPost :=
  (sortDedup items).take 8

/-- The live route's result list for an already-fetched payload. -/
noncomputable def liveResults (posts : List RedditPost) (query : String)
    (type : SearchType) : List SearchResult :=
  let queryTokens := tokenizeLive query
  let candidates := (posts.filter (fun post => post.id.isSome && post.title.isSome)).map
    (scoreLivePost queryTokens type)
  let admitted := candidates.filter (admitsPost queryTokens)
  let redditResults := (liveSelect admitted).map
    (fun item => toSearchResultFromReddit item.post query type)
  if redditResults.isEmpty then [buildNoMatchResultLive query type] else redditResults

/-! ### Page follow-up dispatcher (`page.tsx`) -/

inductive ChatRole
  | user
  | assistant
deriving DecidableEq

structure ChatMessage where
  role : ChatRole
  text : String
deriving DecidableEq

/-- `keywordOverlap` from the page (distinct tokens of `a` present among
    tokens of `b`; the page's `normalize`/token filter coincides with the
    curated tokenizer). -/
def keywordOverlap (a b : String) : ℕ :=
  (tokenizeCurated a).dedup.countP (fun token => (tokenizeCurated b).contains token)

/-- `buildFollowUpAnswer` with the history collapsed to the only bit the
    source reads from it (`history.some(m => m.role === "user")`). -/
def buildFollowUpCore (result : SearchResult) (question : String)
    (hasPriorQuestions : Bool) : String :=
  let q := normalizeForMatch question
  if strIncludes q "where" || strIncludes q "find" || strIncludes q "location" then
    "Where-to-find summary:\n" ++ (((splitOnChar '\n' result.details.data).map
      (fun t => (⟨t⟩ : String))).headD "")
  else if strIncludes q "how" || strIncludes q "use" || strIncludes q "craft" ||
      strIncludes q "build" then
    match ((splitOnChar '\n' result.details.data).map (fun t => (⟨t⟩ : String))).find?
        (fun line => "how to use:".data.isPrefixOf (line.data.map lowerChar)) with
    | some howLine => howLine
    | none => "This entry includes how-to guidance in the details section above."
  else
    let tipLines := (((splitOnChar '\n' result.details.data).map
      (fun t => (⟨t⟩ : String))).filter
        (fun line => "- ".data.isPrefixOf line.data)).take 2
    if (strIncludes q "tip" || strIncludes q "best" || strIncludes q "fast" ||
        strIncludes q "efficient") && !tipLines.isEmpty then
      "Top tips:\n" ++ joinSep "\n" tipLines
    else if strIncludes q "reddit" then
      if result.redditNotes.isEmpty then "This entry has no Reddit-derived notes yet."
      else "Reddit references are summarized in-app only:\n" ++
        joinSep "\n" (result.redditNotes.map (fun note => "- " ++ note))
    else if strIncludes q "video" || strIncludes q "watch" then
      match result.video with
      | some _ => "Open the video guide section in this card. It uses a local storyboard format and stays fully in-app."
      | none => "This entry does not have a curated video clip yet, but I can still help with text guidance from this card."
    else
      let bestFaq := ((result.faq.map (fun item => (item, keywordOverlap question item.question))).insertionSort
        (fun a b => b.2 ≤ a.2)).head?
      match bestFaq with
      | some best =>
        if 0 < best.2 then best.1.answer
        else
          let referencesBlock := if !result.references.isEmpty then
              "\n\nReference notes:\n- " ++ joinSep "\n- " result.references else ""
          let followUpPrompt := if hasPriorQuestions then
              "If you want, ask a narrower follow-up (example: fastest route, required gear, or inventory prep)."
            else
              "Ask another question about route, gear prep, or quickest method and Iâ€™ll narrow this down."
          "From this result:\n" ++ result.summary ++ referencesBlock ++ "\n\n" ++ followUpPrompt
      | none =>
        let referencesBlock := if !result.references.isEmpty then
            "\n\nReference notes:\n- " ++ joinSep "\n- " result.references else ""
        let followUpPrompt := if hasPriorQuestions then
            "If you want, ask a narrower follow-up (example: fastest route, required gear, or inventory prep)."
          else
            "Ask another question about route, gear prep, or quickest method and Iâ€™ll narrow this down."
        "From this result:\n" ++ result.summary ++ referencesBlock ++ "\n\n" ++ followUpPrompt

/-- `buildFollowUpAnswer` from `page.tsx`: the history is read only through
    `hasPriorQuestions`. -/
def buildFollowUpAnswer (result : SearchResult) (question : String)
    (history : List ChatMessage) : String :=
  buildFollowUpCore result question
    (history.any (fun message => decide (message.role = ChatRole.user)))

/-- The branch discriminant of `buildFollowUpAnswer`: `true` exactly when
    the cascade falls through to the final fallback block (lines 105-117),
    i.e. no keyword branch (location, how, tip-with-lines, reddit, video)
    fires and the best FAQ overlap is absent or zero. Mirrors the branch
    conditions of `buildFollowUpCore` verbatim; the fallback block is the
    only place the source reads `hasPriorQuestions`. -/
def takesFallback (result : SearchResult) (question : String) : Bool :=
  let q := normalizeForMatch question
  if strIncludes q "where" || strIncludes q "find" || strIncludes q "location" then false
  else if strIncludes q "how" || strIncludes q "use" || strIncludes q "craft" ||
      strIncludes q "build" then false
  else
    let tipLines := (((splitOnChar '\n' result.details.data).map
      (fun t => (⟨t⟩ : String))).filter
        (fun line => "- ".data.isPrefixOf line.data)).take 2
    if (strIncludes q "tip" || strIncludes q "best" || strIncludes q "fast" ||
        strIncludes q "efficient") && !tipLines.isEmpty then false
    else if strIncludes q "reddit" then false
    else if strIncludes q "video" || strIncludes q "watch" then false
    else
      let bestFaq := ((result.faq.map (fun item => (item, keywordOverlap question item.question))).insertionSort
        (fun a b => b.2 ≤ a.2)).head?
      match bestFaq with
      | some best => decide (best.2 = 0)
      | none => true

/-! ### Lemmas: the bare-URL stripper leaves no URL prefix followed by a
    non-whitespace character -/

theorem bool_eq_false {b : Bool} (h : ¬b = true) : b = false := by
  cases b
  · rfl
  · exact absurd rfl h

theorem lowerChar_of_ws {c : Char} (h : isWsChar c = true) : lowerChar c = c := by
  rcases (by simpa [isWsChar] using h :
      c = ' ' ∨ c = '\t' ∨ c = '\n' ∨ c = '\r' ∨ c = '\x0b' ∨ c = '\x0c') with
    h | h | h | h | h | h <;> subst h <;> decide

theorem prefix_takeWhile_of_all {q : Char → Bool} {l' cs : List Char}
    (hpre : l' <+: cs) (hall : ∀ c ∈ l', q c = true) : l' <+: cs.takeWhile q := by
  induction l' generalizing cs with
  | nil => exact List.nil_prefix
  | cons a l'' ih =>
    obtain ⟨t, rfl⟩ := hpre
    have ha : q a = true := hall a (List.mem_cons_self a l'')
    rw [List.cons_append, List.takeWhile_cons_of_pos ha]
    exact List.cons_prefix_cons.mpr ⟨rfl, ih (List.prefix_append l'' t)
      (fun c hc => hall c (List.mem_cons_of_mem a hc))⟩

theorem takeWhile_prefix_mono {q : Char → Bool} {ys xs : List Char}
    (hpre : ys <+: xs) : ys.takeWhile q <+: xs.takeWhile q := by
  induction ys generalizing xs with
  | nil => exact List.nil_prefix
  | cons a ys' ih =>
    obtain ⟨t, rfl⟩ := hpre
    by_cases ha : q a = true
    · rw [List.cons_append, List.takeWhile_cons_of_pos ha,
        List.takeWhile_cons_of_pos ha]
      exact List.cons_prefix_cons.mpr ⟨rfl, ih (List.prefix_append ys' t)⟩
    · have ha' : q a = false := bool_eq_false ha
      rw [List.cons_append, List.takeWhile_cons_of_neg (by simp [ha']),
        List.takeWhile_cons_of_neg (by simp [ha'])]

theorem startsBad_iff_ex {p cs : List Char} :
    startsBad p cs = true ↔
      ∃ u d t, cs = u ++ d :: t ∧ u.map lowerChar = p ∧ isWsChar d = false := by
  constructor
  · intro h
    unfold startsBad at h
    rw [Bool.and_eq_true] at h
    obtain ⟨h1, h2⟩ := h
    have hpre : p <+: cs.map lowerChar := List.isPrefixOf_iff_prefix.mp h1
    obtain ⟨d, t, hd⟩ : ∃ d t, cs.drop p.length = d :: t := by
      rcases hdrop : cs.drop p.length with - | ⟨d, t⟩
      · rw [hdrop] at h2; simp at h2
      · exact ⟨d, t, rfl⟩
    have hdw : isWsChar d = false := by
      rw [hd] at h2
      simpa using h2
    refine ⟨cs.take p.length, d, t, ?_, ?_, hdw⟩
    · rw [← hd, List.take_append_drop]
    · rw [List.map_take]
      exact (List.prefix_iff_eq_take.mp hpre).symm
  · rintro ⟨u, d, t, rfl, rfl, hdw⟩
    unfold startsBad
    rw [Bool.and_eq_true]
    constructor
    · refine List.isPrefixOf_iff_prefix.mpr ?_
      rw [List.map_append]
      exact List.prefix_append _ _
    · rw [List.length_map, List.drop_append_of_le_length (le_refl u.length),
        List.drop_length]
      simpa using hdw

theorem startsBad_transfer {p ys xs : List Char}
    (hp : ∀ d ∈ p, isWsChar d = false)
    (hpre : ys.takeWhile (fun c => !isWsChar c) <+: xs.takeWhile (fun c => !isWsChar c))
    (h : startsBad p ys = true) : startsBad p xs = true := by
  obtain ⟨u, d, t, rfl, rfl, hdw⟩ := startsBad_iff_ex.mp h
  have hall : ∀ c ∈ u ++ [d], (fun c => !isWsChar c) c = true := by
    intro c hc
    have hcw : isWsChar c = false := by
      rcases List.mem_append.mp hc with hcu | hcd
      · cases hcc : isWsChar c
        · rfl
        · exfalso
          have hmem : lowerChar c ∈ u.map lowerChar := List.mem_map.mpr ⟨c, hcu, rfl⟩
          have hlw := hp _ hmem
          rw [lowerChar_of_ws hcc] at hlw
          rw [hcc] at hlw
          cases hlw
      · have : c = d := by simpa using hcd
        subst this
        exact hdw
    simp [hcw]
  have h1 : u ++ [d] <+: u ++ d :: t := by
    refine ⟨t, ?_⟩
    simp
  have h2 : u ++ [d] <+: (u ++ d :: t).takeWhile (fun c => !isWsChar c) :=
    prefix_takeWhile_of_all h1 hall
  have h3 : u ++ [d] <+: xs := (h2.trans hpre).trans (List.takeWhile_prefix _)
  obtain ⟨t', rfl⟩ := h3
  refine startsBad_iff_ex.mpr ⟨u, d, t', ?_, rfl, hdw⟩
  simp

theorem badAt0_transfer {ys xs : List Char}
    (hpre : ys.takeWhile (fun c => !isWsChar c) <+: xs.takeWhile (fun c => !isWsChar c))
    (h : badAt0 ys = true) : badAt0 xs = true := by
  have h' : (startsBad httpsPat ys = true ∨ startsBad httpPat ys = true) ∨
      startsBad wwwPat ys = true := by
    simpa [badAt0] using h
  have goal : (startsBad httpsPat xs = true ∨ startsBad httpPat xs = true) ∨
      startsBad wwwPat xs = true := by
    rcases h' with (h1 | h1) | h1
    · exact Or.inl (Or.inl (startsBad_transfer (by decide) hpre h1))
    · exact Or.inl (Or.inr (startsBad_transfer (by decide) hpre h1))
    · exact Or.inr (startsBad_transfer (by decide) hpre h1)
  simpa [badAt0] using goal

theorem dropWhile_head_not {q : Char → Bool} (l : List Char) :
    ∀ c rest, l.dropWhile q = c :: rest → q c = false := by
  induction l with
  | nil => intro c rest h; simp [List.dropWhile] at h
  | cons a l' ih =>
    intro c rest h
    by_cases ha : q a = true
    · rw [List.dropWhile_cons_of_pos ha] at h
      exact ih c rest h
    · have ha' : q a = false := bool_eq_false ha
      rw [List.dropWhile_cons_of_neg (by simp [ha'])] at h
      cases h
      exact ha'

/-- After a bare-URL removal the scan restarts at whitespace (or the end),
    and the stripper keeps a whitespace head; so the stripped remainder has
    an empty leading non-whitespace run. -/
theorem stripBareGo_ws_head (fuel : ℕ) (cs : List Char)
    (h : cs = [] ∨ ∃ c rest, cs = c :: rest ∧ isWsChar c = true) :
    (stripBareGo fuel cs).takeWhile (fun c => !isWsChar c) = [] := by
  rcases h with rfl | ⟨c, rest, rfl, hcw⟩
  · cases fuel <;> simp [stripBareGo]
  · have hb : badAt0 (c :: rest) = false := by
      cases hbb : badAt0 (c :: rest)
      · rfl
      · rw [badAt0_head_not_ws c rest hbb] at hcw; cases hcw
    cases fuel with
    | zero =>
      exact List.takeWhile_cons_of_neg (by simp [hcw])
    | succ fuel =>
      rw [stripBareGo, if_neg (by simp [hb])]
      exact List.takeWhile_cons_of_neg (by simp [hcw])

theorem takeWhile_stripBareGo : ∀ (fuel : ℕ) (cs : List Char), cs.length ≤ fuel →
    (stripBareGo fuel cs).takeWhile (fun c => !isWsChar c) <+:
      cs.takeWhile (fun c => !isWsChar c) := by
  intro fuel
  induction fuel with
  | zero =>
    intro cs hcs
    have : cs = [] := List.eq_nil_of_length_eq_zero (Nat.le_zero.mp hcs)
    subst this
    simp [stripBareGo]
  | succ n ih =>
    intro cs hcs
    rcases cs with - | ⟨c, rest⟩
    · simp [stripBareGo]
    · by_cases hb : badAt0 (c :: rest) = true
      · rw [stripBareGo, if_pos hb]
        have hws := stripBareGo_ws_head n ((c :: rest).dropWhile (fun x => !isWsChar x))
          (by rcases hd : (c :: rest).dropWhile (fun x => !isWsChar x) with - | ⟨d, drest⟩
              · exact Or.inl rfl
              · refine Or.inr ⟨d, drest, rfl, ?_⟩
                have := dropWhile_head_not (q := fun x => !isWsChar x) (c :: rest) d drest hd
                simpa using this)
        rw [hws]
        exact List.nil_prefix
      · rw [stripBareGo, if_neg hb]
        have hrest : rest.length ≤ n := Nat.le_of_succ_le_succ (by simpa using hcs)
        by_cases hcw : isWsChar c = true
        · rw [List.takeWhile_cons_of_neg (by simp [hcw]),
            List.takeWhile_cons_of_neg (by simp [hcw])]
        · have hcw' : isWsChar c = false := bool_eq_false hcw
          rw [List.takeWhile_cons_of_pos (by simp [hcw']),
            List.takeWhile_cons_of_pos (by simp [hcw'])]
          exact List.cons_prefix_cons.mpr ⟨rfl, ih rest hrest⟩

theorem hasBadUrl_stripBareGo : ∀ (fuel : ℕ) (cs : List Char), cs.length ≤ fuel →
    hasBadUrl (stripBareGo fuel cs) = false := by
  intro fuel
  induction fuel with
  | zero =>
    intro cs hcs
    have : cs = [] := List.eq_nil_of_length_eq_zero (Nat.le_zero.mp hcs)
    subst this
    simp [stripBareGo, hasBadUrl]
  | succ n ih =>
    intro cs hcs
    rcases cs with - | ⟨c, rest⟩
    · simp [stripBareGo, hasBadUrl]
    · by_cases hb : badAt0 (c :: rest) = true
      · rw [stripBareGo, if_pos hb]
        have hc : isWsChar c = false := badAt0_head_not_ws c rest hb
        have hlen : ((c :: rest).dropWhile (fun x => !isWsChar x)).length ≤ n := by
          rw [List.dropWhile_cons_of_pos (by simp [hc])]
          have := length_dropWhile_le (fun x => !isWsChar x) rest
          have hr : rest.length ≤ n := Nat.le_of_succ_le_succ (by simpa using hcs)
          omega
        exact ih _ hlen
      · rw [stripBareGo, if_neg hb]
        rw [hasBadUrl]
        have hrest : rest.length ≤ n := Nat.le_of_succ_le_succ (by simpa using hcs)
        have htail : hasBadUrl (stripBareGo n rest) = false := ih rest hrest
        have hhead : badAt0 (c :: stripBareGo n rest) = false := by
          cases hbb : badAt0 (c :: stripBareGo n rest)
          · rfl
          · exfalso
            have hpre : (c :: stripBareGo n rest).takeWhile (fun x => !isWsChar x) <+:
                (c :: rest).takeWhile (fun x => !isWsChar x) := by
              by_cases hcw : isWsChar c = true
              · rw [List.takeWhile_cons_of_neg (by simp [hcw])]
                exact List.nil_prefix
              · have hcw' : isWsChar c = false := bool_eq_false hcw
                rw [List.takeWhile_cons_of_pos (by simp [hcw']),
                  List.takeWhile_cons_of_pos (by simp [hcw'])]
                exact List.cons_prefix_cons.mpr ⟨rfl, takeWhile_stripBareGo n rest hrest⟩
            exact absurd (badAt0_transfer hpre hbb) (by simp [hb])
        rw [hhead, htail]
        rfl

/-- Central invariant: the output of the bare-URL removal pass contains no
    URL prefix immediately followed by a non-whitespace character. -/
theorem hasBadUrl_stripBare (cs : List Char) : hasBadUrl (stripBare cs) = false :=
  hasBadUrl_stripBareGo cs.length cs (le_refl _)

theorem hasBadUrl_cons {c : Char} {rest : List Char}
    (h : hasBadUrl (c :: rest) = false) :
    badAt0 (c :: rest) = false ∧ hasBadUrl rest = false := by
  rw [hasBadUrl, Bool.or_eq_false_iff] at h
  exact h

theorem hasBadUrl_dropWhile (q : Char → Bool) (l : List Char)
    (h : hasBadUrl l = false) : hasBadUrl (l.dropWhile q) = false := by
  induction l with
  | nil => simpa [List.dropWhile] using h
  | cons c rest ih =>
    by_cases hq : q c = true
    · rw [List.dropWhile_cons_of_pos hq]
      exact ih (hasBadUrl_cons h).2
    · rw [List.dropWhile_cons_of_neg (by simp [bool_eq_false hq])]
      exact h

theorem takeWhile_collapseWsGo : ∀ (fuel : ℕ) (cs : List Char), cs.length ≤ fuel →
    (collapseWsGo fuel cs).takeWhile (fun c => !isWsChar c) =
      cs.takeWhile (fun c => !isWsChar c) := by
  intro fuel
  induction fuel with
  | zero =>
    intro cs hcs
    have : cs = [] := List.eq_nil_of_length_eq_zero (Nat.le_zero.mp hcs)
    subst this
    simp [collapseWsGo]
  | succ n ih =>
    intro cs hcs
    rcases cs with - | ⟨c, rest⟩
    · simp [collapseWsGo]
    · have hrest : rest.length ≤ n := Nat.le_of_succ_le_succ (by simpa using hcs)
      by_cases hcw : isWsChar c = true
      · rw [collapseWsGo, if_pos hcw, List.takeWhile_cons_of_neg (by decide),
          List.takeWhile_cons_of_neg (by simp [hcw])]
      · have hcw' : isWsChar c = false := bool_eq_false hcw
        rw [collapseWsGo, if_neg (by simp [hcw']),
          List.takeWhile_cons_of_pos (by simp [hcw']),
          List.takeWhile_cons_of_pos (by simp [hcw']), ih rest hrest]

theorem hasBadUrl_collapseWsGo : ∀ (fuel : ℕ) (cs : List Char), cs.length ≤ fuel →
    hasBadUrl cs = false → hasBadUrl (collapseWsGo fuel cs) = false := by
  intro fuel
  induction fuel with
  | zero =>
    intro cs hcs _
    have : cs = [] := List.eq_nil_of_length_eq_zero (Nat.le_zero.mp hcs)
    subst this
    simp [collapseWsGo, hasBadUrl]
  | succ n ih =>
    intro cs hcs h
    rcases cs with - | ⟨c, rest⟩
    · simp [collapseWsGo, hasBadUrl]
    · have hrest : rest.length ≤ n := Nat.le_of_succ_le_succ (by simpa using hcs)
      obtain ⟨h1, h2⟩ := hasBadUrl_cons h
      by_cases hcw : isWsChar c = true
      · rw [collapseWsGo, if_pos hcw, hasBadUrl]
        have hb : badAt0 (' ' ::
            collapseWsGo n (rest.dropWhile (fun x => isWsChar x))) = false := by
          cases hbb : badAt0 (' ' :: collapseWsGo n (rest.dropWhile (fun x => isWsChar x)))
          · rfl
          · have := badAt0_head_not_ws _ _ hbb
            simp [isWsChar] at this
        have hdl : (rest.dropWhile (fun x => isWsChar x)).length ≤ n :=
          le_trans (length_dropWhile_le _ rest) hrest
        rw [hb, ih _ hdl (hasBadUrl_dropWhile _ rest h2)]
        rfl
      · have hcw' : isWsChar c = false := bool_eq_false hcw
        rw [collapseWsGo, if_neg (by simp [hcw']), hasBadUrl]
        have hb : badAt0 (c :: collapseWsGo n rest) = false := by
          cases hbb : badAt0 (c :: collapseWsGo n rest)
          · rfl
          · exfalso
            have hpre : (c :: collapseWsGo n rest).takeWhile (fun x => !isWsChar x) <+:
                (c :: rest).takeWhile (fun x => !isWsChar x) := by
              rw [List.takeWhile_cons_of_pos (by simp [hcw']),
                List.takeWhile_cons_of_pos (by simp [hcw']),
                takeWhile_collapseWsGo n rest hrest]
            exact absurd (badAt0_transfer hpre hbb) (by simp [h1])
        rw [hb, ih rest hrest h2]
        rfl

theorem hasBadUrl_collapseWs (cs : List Char) (h : hasBadUrl cs = false) :
    hasBadUrl (collapseWs cs) = false :=
  hasBadUrl_collapseWsGo cs.length cs (le_refl _) h

theorem prefix_hasBadUrl {ys xs : List Char} (hpre : ys <+: xs)
    (h : hasBadUrl xs = false) : hasBadUrl ys = false := by
  induction ys generalizing xs with
  | nil => simp [hasBadUrl]
  | cons c ys' ih =>
    obtain ⟨t, rfl⟩ := hpre
    rw [List.cons_append] at h
    obtain ⟨h1, h2⟩ := hasBadUrl_cons h
    rw [hasBadUrl]
    have hb : badAt0 (c :: ys') = false := by
      cases hbb : badAt0 (c :: ys')
      · rfl
      · exfalso
        have hpre2 : (c :: ys').takeWhile (fun x => !isWsChar x) <+:
            (c :: (ys' ++ t)).takeWhile (fun x => !isWsChar x) :=
          takeWhile_prefix_mono (List.cons_prefix_cons.mpr ⟨rfl, List.prefix_append ys' t⟩)
        exact absurd (badAt0_transfer hpre2 hbb) (by simp [h1])
    rw [hb, ih (List.prefix_append ys' t) h2]
    rfl

theorem hasBadUrl_trimWs (l : List Char) (h : hasBadUrl l = false) :
    hasBadUrl (trimWs l) = false := by
  unfold trimWs
  have h1 : hasBadUrl (l.dropWhile (fun c => isWsChar c)) = false :=
    hasBadUrl_dropWhile _ _ h
  have hsuff : (l.dropWhile (fun c => isWsChar c)).reverse.dropWhile (fun c => isWsChar c) <:+
      (l.dropWhile (fun c => isWsChar c)).reverse :=
    ⟨(l.dropWhile (fun c => isWsChar c)).reverse.takeWhile (fun c => isWsChar c),
      List.takeWhile_append_dropWhile _ _⟩
  have hpre : ((l.dropWhile (fun c => isWsChar c)).reverse.dropWhile
        (fun c => isWsChar c)).reverse <+:
      (l.dropWhile (fun c => isWsChar c)).reverse.reverse := by
    rw [List.reverse_prefix]
    simpa using hsuff
  rw [List.reverse_reverse] at hpre
  exact prefix_hasBadUrl hpre h1

/-- The link stripper's output never contains `http://`, `https://` or
    `www.` immediately followed by a non-whitespace character. -/
theorem hasBadUrl_stripExternalLinks (s : String) :
    hasBadUrl (stripExternalLinks s).data = false := by
  show hasBadUrl (stripExternalLinksL s.data) = false
  unfold stripExternalLinksL
  exact hasBadUrl_trimWs _ (hasBadUrl_collapseWs _ (hasBadUrl_stripBare _))

/-! ### Lemmas: substring occurrences across concatenation -/

theorem listContains_iff {p s : List Char} :
    listContains p s = true ↔ ∃ u t, s = u ++ p ++ t := by
  induction s with
  | nil =>
    simp only [listContains, List.isEmpty_iff]
    constructor
    · rintro rfl
      exact ⟨[], [], rfl⟩
    · rintro ⟨u, t, h⟩
      rcases u with - | _
      · rcases p with - | _
        · rfl
        · simp at h
      · simp at h
  | cons c rest ih =>
    rw [listContains, Bool.or_eq_true]
    constructor
    · rintro (h | h)
      · obtain ⟨t, ht⟩ := List.isPrefixOf_iff_prefix.mp h
        exact ⟨[], t, by simp [← ht]⟩
      · obtain ⟨u, t, rfl⟩ := ih.mp h
        exact ⟨c :: u, t, rfl⟩
    · rintro ⟨u, t, h⟩
      rcases u with - | ⟨x, u'⟩
      · left
        refine List.isPrefixOf_iff_prefix.mpr ⟨t, ?_⟩
        simpa using h.symm
      · right
        refine ih.mpr ⟨u', t, ?_⟩
        rw [List.cons_append, List.cons_append] at h
        exact (List.cons.injEq .. ▸ h : _ ∧ _).2

theorem listContains_mem {p s : List Char} (h : listContains p s = true) :
    ∀ d ∈ p, d ∈ s := by
  obtain ⟨u, t, rfl⟩ := listContains_iff.mp h
  intro d hd
  simp [hd]

theorem prefix_of_append_le {p a b : List Char} (h : p <+: a ++ b)
    (hl : p.length ≤ a.length) : p <+: a := by
  have h1 := List.prefix_iff_eq_take.mp h
  rw [List.take_append_eq_append_take, Nat.sub_eq_zero_of_le hl,
    List.take_zero, List.append_nil] at h1
  exact List.prefix_iff_eq_take.mpr h1

theorem append_prefix_split {p a b : List Char} (h : p <+: a ++ b)
    (hl : a.length < p.length) : a <+: p ∧ p.drop a.length <+: b := by
  obtain ⟨s, hs⟩ := h
  constructor
  · have h1 : (p ++ s).take a.length = a := by
      rw [hs, List.take_append_eq_append_take, Nat.sub_self, List.take_zero,
        List.append_nil, List.take_length]
    rw [List.take_append_eq_append_take, Nat.sub_eq_zero_of_le (le_of_lt hl),
      List.take_zero, List.append_nil] at h1
    exact List.prefix_iff_eq_take.mpr h1.symm
  · refine ⟨s, ?_⟩
    have h2 : (p ++ s).drop a.length = b := by
      rw [hs, List.drop_append_eq_append_drop, Nat.sub_self, List.drop_zero,
        List.drop_length, List.nil_append]
    rw [List.drop_append_eq_append_drop, Nat.sub_eq_zero_of_le (le_of_lt hl),
      List.drop_zero] at h2
    exact h2

theorem getLast?_mem_of_eq {l : List Char} {x : Char} (h : l.getLast? = some x) :
    x ∈ l := by
  induction l with
  | nil => simp at h
  | cons c rest ih =>
    rcases rest with - | ⟨d, rest'⟩
    · simp only [List.getLast?_singleton, Option.some.injEq] at h
      simp [h]
    · rw [List.getLast?_cons_cons] at h
      exact List.mem_cons_of_mem c (ih h)

/-- An occurrence of `p` inside `a ++ b` lies inside `a`, lies inside `b`,
    or crosses the boundary; a crossing occurrence contains both the last
    character of `a` and the first character of `b`. -/
theorem listContains_append {p a b : List Char}
    (h : listContains p (a ++ b) = true) :
    listContains p a = true ∨ listContains p b = true ∨
      ((∃ x, a.getLast? = some x ∧ x ∈ p) ∧ (∃ y, b.head? = some y ∧ y ∈ p)) := by
  induction a with
  | nil =>
    right; left
    simpa using h
  | cons c a' ih =>
    rw [List.cons_append, listContains, Bool.or_eq_true] at h
    rcases h with h | h
    · have hp : p <+: (c :: a') ++ b := by
        rw [List.cons_append]
        exact List.isPrefixOf_iff_prefix.mp h
      by_cases hl : p.length ≤ (c :: a').length
      · left
        rw [listContains, Bool.or_eq_true]
        exact Or.inl (List.isPrefixOf_iff_prefix.mpr (prefix_of_append_le hp hl))
      · have hl' : (c :: a').length < p.length := Nat.lt_of_not_le hl
        obtain ⟨hap, hdrop⟩ := append_prefix_split hp hl'
        right; right
        constructor
        · obtain ⟨x, hx⟩ : ∃ x, (c :: a').getLast? = some x := by
            rcases hgl : (c :: a').getLast? with - | x
            · simp at hgl
            · exact ⟨x, rfl⟩
          exact ⟨x, hx, hap.subset (getLast?_mem_of_eq hx)⟩
        · have hne : p.drop (c :: a').length ≠ [] := by
            intro hcontra
            have := List.length_drop ((c :: a').length) p ▸ congrArg List.length hcontra
            simp only [List.length_nil] at this
            omega
          rcases hd : p.drop (c :: a').length with - | ⟨y, ds⟩
          · exact absurd hd hne
          · obtain ⟨s, hbs⟩ := hdrop
            rw [hd] at hbs
            refine ⟨y, ?_, ?_⟩
            · rw [← hbs]
              rfl
            · exact List.mem_of_mem_drop (hd ▸ List.mem_cons_self y ds)
    · rcases ih h with h1 | h1 | ⟨⟨x, hx, hxp⟩, hy⟩
      · left
        rw [listContains, Bool.or_eq_true]
        exact Or.inr h1
      · right; left
        exact h1
      · right; right
        refine ⟨⟨x, ?_, hxp⟩, hy⟩
        rcases a' with - | ⟨d, a''⟩
        · simp at hx
        · rw [List.getLast?_cons_cons]
          exact hx

/-- The case-insensitive version used by the URL-freedom claims. -/
theorem hasOccCI_append {p a b : List Char} (h : hasOccCI p (a ++ b) = true) :
    hasOccCI p a = true ∨ hasOccCI p b = true ∨
      ((∃ x, a.getLast? = some x ∧ lowerChar x ∈ p) ∧
        (∃ y, b.head? = some y ∧ lowerChar y ∈ p)) := by
  unfold hasOccCI at h ⊢
  rw [List.map_append] at h
  rcases listContains_append h with h1 | h1 | ⟨⟨x, hx, hxp⟩, ⟨y, hy, hyp⟩⟩
  · exact Or.inl h1
  · exact Or.inr (Or.inl h1)
  · right; right
    constructor
    · rcases a with - | ⟨c, a'⟩
      · simp at hx
      · obtain ⟨x', hx', hlx⟩ : ∃ x', (c :: a').getLast? = some x' ∧ lowerChar x' = x := by
          rw [List.getLast?_map] at hx
          rcases hgl : (c :: a').getLast? with - | x''
          · rw [hgl] at hx; simp at hx
          · rw [hgl] at hx
            simp only [Option.map_some', Option.some.injEq] at hx
            exact ⟨x'', rfl, hx⟩
        exact ⟨x', hx', hlx ▸ hxp⟩
    · rcases b with - | ⟨c, b'⟩
      · simp at hy
      · simp only [List.map_cons, List.head?_cons, Option.some.injEq] at hy
        exact ⟨c, rfl, hy ▸ hyp⟩

/-! ### Character-class facts about the normalizer -/

theorem lowerChar_of_lowAlnum {c : Char} (h : isLowerAlnum c = true) :
    lowerChar c = c := by
  unfold lowerChar
  rcases (by simpa [isLowerAlnum] using h :
      ('a' ≤ c ∧ c ≤ 'z') ∨ ('0' ≤ c ∧ c ≤ '9')) with ⟨h1, h2⟩ | ⟨h1, h2⟩
  · rw [if_neg]
    rintro ⟨-, hz⟩
    exact absurd (le_trans h1 hz) (by decide)
  · rw [if_neg]
    rintro ⟨ha, -⟩
    exact absurd (le_trans ha h2) (by decide)

theorem mem_dropWhile {q : Char → Bool} {l : List Char} {c : Char}
    (h : c ∈ l.dropWhile q) : c ∈ l := by
  have : l.takeWhile q ++ l.dropWhile q = l := List.takeWhile_append_dropWhile _ _
  rw [← this]
  exact List.mem_append_right _ h

theorem mem_trimWs {l : List Char} {c : Char} (h : c ∈ trimWs l) : c ∈ l := by
  unfold trimWs at h
  rw [List.mem_reverse] at h
  have h1 := mem_dropWhile h
  rw [List.mem_reverse] at h1
  exact mem_dropWhile h1

theorem mem_collapseWsGo : ∀ (fuel : ℕ) (l : List Char), l.length ≤ fuel →
    ∀ c ∈ collapseWsGo fuel l, c = ' ' ∨ c ∈ l := by
  intro fuel
  induction fuel with
  | zero =>
    intro l hl c hc
    have : l = [] := List.eq_nil_of_length_eq_zero (Nat.le_zero.mp hl)
    subst this
    simp [collapseWsGo] at hc
  | succ n ih =>
    intro l hl c hc
    rcases l with - | ⟨x, rest⟩
    · simp [collapseWsGo] at hc
    · have hrest : rest.length ≤ n := Nat.le_of_succ_le_succ (by simpa using hl)
      by_cases hx : isWsChar x = true
      · rw [collapseWsGo, if_pos hx] at hc
        rcases List.mem_cons.mp hc with rfl | hc2
        · exact Or.inl rfl
        · have hdl : (rest.dropWhile (fun y => isWsChar y)).length ≤ n :=
            le_trans (length_dropWhile_le _ rest) hrest
          rcases ih _ hdl c hc2 with h | h
          · exact Or.inl h
          · exact Or.inr (List.mem_cons_of_mem x (mem_dropWhile h))
      · rw [collapseWsGo, if_neg (by simp [bool_eq_false hx])] at hc
        rcases List.mem_cons.mp hc with rfl | hc2
        · exact Or.inr (List.mem_cons_self _ _)
        · rcases ih rest hrest c hc2 with h | h
          · exact Or.inl h
          · exact Or.inr (List.mem_cons_of_mem x h)

theorem normalizeForMatch_chars (s : String) :
    ∀ c ∈ (normalizeForMatch s).data, isLowerAlnum c = true ∨ isWsChar c = true := by
  intro c hc
  have hc1 : c ∈ collapseWs ((s.data.map lowerChar).map classReplace) :=
    mem_trimWs hc
  rcases mem_collapseWsGo _ _ (le_refl _) c hc1 with rfl | hc2
  · exact Or.inr (by decide)
  · obtain ⟨x, -, rfl⟩ := List.mem_map.mp hc2
    unfold classReplace
    by_cases hx : (isLowerAlnum x || isWsChar x) = true
    · rw [if_pos hx]
      simpa using hx
    · rw [if_neg hx]
      exact Or.inr (by decide)

theorem dashed_chars (q : String) :
    ∀ c ∈ (normalizeForMatch q).data.map (fun c => if isWsChar c then '-' else c),
      isLowerAlnum c = true ∨ c = '-' := by
  intro c hc
  obtain ⟨x, hx, rfl⟩ := List.mem_map.mp hc
  by_cases hw : isWsChar x = true
  · rw [if_pos hw]
    exact Or.inr rfl
  · rw [if_neg hw]
    rcases normalizeForMatch_chars q x hx with h | h
    · exact Or.inl h
    · exact absurd h hw

/-- No URL pattern occurs in the dashed normalized query (its characters
    are lower-case alphanumerics and dashes, while every pattern contains a
    `/` or a `.`). -/
theorem hasOccCI_dashed_false {p : List Char} {k : Char} (hk : k ∈ p)
    (hk1 : isLowerAlnum k = false) (hk2 : ¬k = '-') (q : String) :
    hasOccCI p ((normalizeForMatch q).data.map
      (fun c => if isWsChar c then '-' else c)) = false := by
  cases h : hasOccCI p ((normalizeForMatch q).data.map
      (fun c => if isWsChar c then '-' else c))
  · rfl
  · exfalso
    have hkmem := listContains_mem h k hk
    obtain ⟨c, hc, hck⟩ := List.mem_map.mp hkmem
    rcases dashed_chars q c hc with hcl | rfl
    · rw [lowerChar_of_lowAlnum hcl] at hck
      rw [hck] at hcl
      rw [hcl] at hk1
      cases hk1
    · rw [(by decide : lowerChar '-' = '-')] at hck
      exact hk2 hck.symm

/-- Concatenation scheme of the no-match titles and the live FAQ question:
    literal, then the raw query, then a literal; no occurrence can live in
    or cross out of the literals when their boundary characters are not
    pattern characters. -/
theorem hasOccCI_concat_false {p : List Char} {a q b : List Char}
    (ha : hasOccCI p a = false) (hq : hasOccCI p q = false)
    (hb : hasOccCI p b = false)
    (hla : ∀ x, a.getLast? = some x → lowerChar x ∈ p → False)
    (hhb : ∀ y, b.head? = some y → lowerChar y ∈ p → False) :
    hasOccCI p (a ++ (q ++ b)) = false := by
  cases h : hasOccCI p (a ++ (q ++ b))
  · rfl
  · exfalso
    rcases hasOccCI_append h with h1 | h1 | ⟨⟨x, hx, hxp⟩, -⟩
    · rw [h1] at ha; cases ha
    · rcases hasOccCI_append h1 with h2 | h2 | ⟨-, ⟨y, hy, hyp⟩⟩
      · rw [h2] at hq; cases hq
      · rw [h2] at hb; cases hb
      · exact hhb y hy hyp
    · exact hla x hx hxp

/-- The string fields of an answer card covered by the URL invariant
    (`id`, `title`, `summary`, `details`, `source`, references, community
    notes, FAQ questions and answers). -/
def cardStrings (r : SearchResult) : List String :=
  [r.id, r.title, r.summary, r.details, r.source] ++ r.references ++
    r.redditNotes ++ r.faq.map FaqItem.question ++ r.faq.map FaqItem.answer

def cardUrlFree (r : SearchResult) : Prop :=
  ∀ s ∈ cardStrings r, noUrlSub s

instance (r : SearchResult) : Decidable (cardUrlFree r) := by
  unfold cardUrlFree; infer_instance

/-- Boundary test used for crossing occurrences: the last character of the
    left-hand literal is not a character of any URL pattern. -/
def boundaryLast (l : List Char) : Bool :=
  match l.getLast? with
  | none => true
  | some x => !(decide (lowerChar x ∈ httpPat) || decide (lowerChar x ∈ httpsPat) ||
      decide (lowerChar x ∈ wwwPat))

def boundaryHead (l : List Char) : Bool :=
  match l.head? with
  | none => true
  | some x => !(decide (lowerChar x ∈ httpPat) || decide (lowerChar x ∈ httpsPat) ||
      decide (lowerChar x ∈ wwwPat))

theorem boundaryLast_elim {l : List Char} (h : boundaryLast l = true)
    {p : List Char} (hp : p = httpPat ∨ p = httpsPat ∨ p = wwwPat) :
    ∀ x, l.getLast? = some x → lowerChar x ∈ p → False := by
  intro x hx hmem
  unfold boundaryLast at h
  rw [hx] at h
  simp only [Bool.not_eq_true', Bool.or_eq_false_iff, decide_eq_false_iff_not] at h
  rcases hp with rfl | rfl | rfl
  · exact h.1.1 hmem
  · exact h.1.2 hmem
  · exact h.2 hmem

theorem boundaryHead_elim {l : List Char} (h : boundaryHead l = true)
    {p : List Char} (hp : p = httpPat ∨ p = httpsPat ∨ p = wwwPat) :
    ∀ x, l.head? = some x → lowerChar x ∈ p → False := by
  intro x hx hmem
  unfold boundaryHead at h
  rw [hx] at h
  simp only [Bool.not_eq_true', Bool.or_eq_false_iff, decide_eq_false_iff_not] at h
  rcases hp with rfl | rfl | rfl
  · exact h.1.1 hmem
  · exact h.1.2 hmem
  · exact h.2 hmem

/-- A literal-wrapped query (`lit₁ ++ query ++ lit₂`) is URL-free when the
    query is, the literals are, and the boundary characters are not pattern
    characters. -/
theorem noUrlSub_wrap {a b query : String} (hq : noUrlSub query)
    (ha : noUrlSub a) (hb : noUrlSub b)
    (hla : boundaryLast a.data = true) (hhb : boundaryHead b.data = true) :
    noUrlSub (a ++ query ++ b) := by
  have hdata : (a ++ query ++ b).data = a.data ++ (query.data ++ b.data) := by
    rw [String.data_append, String.data_append, List.append_assoc]
  unfold noUrlSub
  rw [hdata]
  refine ⟨?_, ?_, ?_⟩
  · exact hasOccCI_concat_false ha.1 hq.1 hb.1
      (boundaryLast_elim hla (Or.inl rfl)) (boundaryHead_elim hhb (Or.inl rfl))
  · exact hasOccCI_concat_false ha.2.1 hq.2.1 hb.2.1
      (boundaryLast_elim hla (Or.inr (Or.inl rfl)))
      (boundaryHead_elim hhb (Or.inr (Or.inl rfl)))
  · exact hasOccCI_concat_false ha.2.2 hq.2.2 hb.2.2
      (boundaryLast_elim hla (Or.inr (Or.inr rfl)))
      (boundaryHead_elim hhb (Or.inr (Or.inr rfl)))

/-- The deterministic no-match identifier is URL-free for every query. -/
theorem noUrlSub_noMatchId (query : String) :
    noUrlSub ("no-match-" ++ dashedQuery query) := by
  unfold dashedQuery
  by_cases hd : ((normalizeForMatch query).data.map
      (fun c => if isWsChar c then '-' else c)).isEmpty = true
  · rw [if_pos hd]
    decide
  · rw [if_neg hd]
    unfold noUrlSub
    refine ⟨?_, ?_, ?_⟩
    · have h1 : hasOccCI httpPat ("no-match-".data ++
          ((normalizeForMatch query).data.map (fun c => if isWsChar c then '-' else c) ++
            ([] : List Char))) = false :=
        hasOccCI_concat_false (by decide)
          (hasOccCI_dashed_false (show '/' ∈ httpPat by decide) (by decide) (by decide) query)
          (by decide)
          (boundaryLast_elim (l := "no-match-".data) (by decide) (Or.inl rfl))
          (boundaryHead_elim (l := ([] : List Char)) (by decide) (Or.inl rfl))
      rw [List.append_nil] at h1
      rw [String.data_append]
      exact h1
    · have h1 : hasOccCI httpsPat ("no-match-".data ++
          ((normalizeForMatch query).data.map (fun c => if isWsChar c then '-' else c) ++
            ([] : List Char))) = false :=
        hasOccCI_concat_false (by decide)
          (hasOccCI_dashed_false (show '/' ∈ httpsPat by decide) (by decide) (by decide) query)
          (by decide)
          (boundaryLast_elim (l := "no-match-".data) (by decide) (Or.inr (Or.inl rfl)))
          (boundaryHead_elim (l := ([] : List Char)) (by decide) (Or.inr (Or.inl rfl)))
      rw [List.append_nil] at h1
      rw [String.data_append]
      exact h1
    · have h1 : hasOccCI wwwPat ("no-match-".data ++
          ((normalizeForMatch query).data.map (fun c => if isWsChar c then '-' else c) ++
            ([] : List Char))) = false :=
        hasOccCI_concat_false (by decide)
          (hasOccCI_dashed_false (show '.' ∈ wwwPat by decide) (by decide) (by decide) query)
          (by decide)
          (boundaryLast_elim (l := "no-match-".data) (by decide) (Or.inr (Or.inr rfl)))
          (boundaryHead_elim (l := ([] : List Char)) (by decide) (Or.inr (Or.inr rfl)))
      rw [List.append_nil] at h1
      rw [String.data_append]
      exact h1

/-! ### Claim C1 -/

set_option maxRecDepth 200000

/-- Claim C1 (counterexample): the URL-freedom invariant fails as stated.
    The no-match card titles embed the raw query verbatim, so a query
    containing `https://example.com` produces cards whose `title` contains
    `https://`; and on the live path `cleanText` deletes markup characters
    after link stripping, so a post title `ht*tp://evil.com link` becomes a
    card title containing `http://evil.com`. -/
theorem claim_c1_counterexample :
    hasOccCI httpsPat
        (buildNoMatchResultLocal "see https://example.com please" SearchType.howto).title.data
      = true ∧
    hasOccCI httpsPat
        (buildNoMatchResultLive "see https://example.com please" SearchType.howto).title.data
      = true ∧
    hasOccCI httpPat
        (toSearchResultFromReddit { id := some "p1", title := some "ht*tp://evil.com link" }
          "radiant heart" SearchType.howto).title.data
      = true := by
  refine ⟨by decide, by decide, by decide⟩

/-- Claim C1 (amended): every Answer Card of the curated path and every
    no-match card (of either endpoint) contains no `http://`, `https://` or
    `www.` substring in any of its string fields, provided the raw query
    itself contains none; the live path's post-derived cards are excluded,
    as forced by the counterexample. -/
theorem claim_c1_amended (query : String) (type : SearchType) (hq : noUrlSub query) :
    (∀ e ∈ LOCAL_KNOWLEDGE, cardUrlFree (toSearchResult e type)) ∧
    cardUrlFree (buildNoMatchResultLocal query type) ∧
    cardUrlFree (buildNoMatchResultLive query type) := by
  refine ⟨?_, ?_, ?_⟩
  · cases type <;> decide
  · intro s hs
    cases type <;>
    · simp only [cardStrings, buildNoMatchResultLocal, List.map_cons, List.map_nil,
        List.cons_append, List.nil_append, List.mem_cons, List.not_mem_nil, or_false] at hs
      rcases hs with rfl | rfl | rfl | rfl | rfl | rfl | rfl | rfl | rfl
      · exact noUrlSub_noMatchId query
      · exact noUrlSub_wrap hq (by decide) (by decide) (by decide) (by decide)
      · decide
      · decide
      · decide
      · decide
      · decide
      · decide
      · decide
  · intro s hs
    cases type <;>
    · simp only [cardStrings, buildNoMatchResultLive, List.map_cons, List.map_nil,
        List.cons_append, List.nil_append, List.mem_cons, List.not_mem_nil, or_false] at hs
      rcases hs with rfl | rfl | rfl | rfl | rfl | rfl | rfl | rfl | rfl
      · exact noUrlSub_noMatchId query
      · exact noUrlSub_wrap hq (by decide) (by decide) (by decide) (by decide)
      · decide
      · decide
      · decide
      · decide
      · decide
      · decide
      · decide

/-- Witness for the amended C1 at the concrete query `radiant heart`. -/
theorem claim_c1_amended_witness :
    noUrlSub "radiant heart" ∧
      cardUrlFree (buildNoMatchResultLive "radiant heart" SearchType.howto) :=
  ⟨by decide, (claim_c1_amended "radiant heart" SearchType.howto (by decide)).2.2⟩

/-! ### Claim C4 -/

/-- Claim C4 (counterexample): on `[a]([b](http://q)http:// )` the first
    pass removes the inner markdown span and leaves `[a](http:// )`, a
    markdown span around a degenerate URL whose text still contains the
    substring `http://`; a second pass removes it entirely, so
    `strip_links` is neither URL-pattern-free nor idempotent. -/
theorem claim_c4_counterexample :
    stripExternalLinks (stripExternalLinks "[a]([b](http://q)http:// )") ≠
        stripExternalLinks "[a]([b](http://q)http:// )" ∧
      hasOccCI httpPat (stripExternalLinks "[a]([b](http://q)http:// )").data = true := by
  refine ⟨by decide, by decide⟩

/-- Claim C4 (amended): for every input string, the output of
    `stripExternalLinks` contains no `http://`, `https://` or `www.`
    substring immediately followed by a non-whitespace character (a
    degenerate bare prefix followed by whitespace or end of text may
    survive, possibly inside a markdown span, and a repeated application
    can strip further, so idempotence does not hold). -/
theorem claim_c4_amended (s : String) :
    hasBadUrl (stripExternalLinks s).data = false :=
  hasBadUrl_stripExternalLinks s

/-! ### Claim C3 -/

/-- The code's quality score of the all-defaults post on the empty token
    list: every overlap and keyword count is zero and the engagement term is
    `log10(max(0, 1) + 1) · 2 = log10 2 · 2`. -/
theorem scoreRedditPost_zeroPost (type : SearchType) :
    scoreRedditPost {} [] type = Real.logb 10 2 * 2 := by
  have e4 : countKeywordHits "" (MODE_KEYWORDS type) = 0 := by
    cases type <;> decide
  simp only [scoreRedditPost,
    (show cleanText ((({} : RedditPost)).title.getD "") = "" by decide),
    (show cleanText ((({} : RedditPost)).selftext.getD "") = "" by decide),
    (show countTokenOverlap "" ([] : List String) = 0 by decide),
    e4,
    (show hasNmsContext {} = false by decide),
    (show countKeywordHits "" META_TITLE_KEYWORDS = 0 by decide),
    (show (max ((({} : RedditPost)).score.getD 0 +
        (({} : RedditPost)).num_comments.getD 0) 1 : ℤ) = 1 by decide),
    (show ("" : String).length = 0 by decide)]
  norm_num

/-- Claim C3 (counterexample): the claimed engagement bonus uses
    `max(score + comments, 0)`, the code uses `max(score + comments, 1)`;
    on a post with `score + comments = 0` the claimed formula yields
    engagement 0 while the code yields `2·log10 2 ≠ 0`. -/
theorem claim_c3_counterexample :
    scoreRedditPost {} [] SearchType.howto ≠
      specScoreRedditPost {} [] SearchType.howto := by
  have hspec : specScoreRedditPost {} [] SearchType.howto = 0 := by
    simp only [specScoreRedditPost,
      (show cleanText ((({} : RedditPost)).title.getD "") = "" by decide),
      (show cleanText ((({} : RedditPost)).selftext.getD "") = "" by decide),
      (show countTokenOverlap "" ([] : List String) = 0 by decide),
      (show countKeywordHits "" (MODE_KEYWORDS SearchType.howto) = 0 by decide),
      (show hasNmsContext {} = false by decide),
      (show countKeywordHits "" META_TITLE_KEYWORDS = 0 by decide),
      (show (max ((({} : RedditPost)).score.getD 0 +
          (({} : RedditPost)).num_comments.getD 0) 0 : ℤ) = 0 by decide),
      (show ("" : String).length = 0 by decide)]
    norm_num [Real.logb_one]
  rw [scoreRedditPost_zeroPost, hspec]
  have hpos : 0 < Real.logb 10 2 :=
    Real.logb_pos (by norm_num) (by norm_num)
  exact ne_of_gt (by linarith)

/-- Claim C3 (amended): for every live post, query token list and mode, the
    live scorer returns exactly the weighted sum of the claim with the
    engagement bonus `log10(max(post.score + post.comments, 1) + 1) × 2`
    (the code clamps at 1, not 0); in particular, a post with
    `post.score + post.comments = 0` receives an engagement bonus of
    exactly `2·log10 2`, not 0. -/
theorem claim_c3_amended (post : RedditPost) (queryTokens : List String)
    (type : SearchType) :
    scoreRedditPost post queryTokens type =
      (countTokenOverlap (cleanText (post.title.getD "")) queryTokens : ℝ) * 10 +
      (countTokenOverlap (cleanText (post.selftext.getD "")) queryTokens : ℝ) * 4 +
      (countKeywordHits (cleanText (post.title.getD "")) (MODE_KEYWORDS type) : ℝ) * 3 +
      (countKeywordHits (cleanText (post.selftext.getD "")) (MODE_KEYWORDS type) : ℝ) * 1.5 +
      Real.logb 10
        (((max ((post.score.getD 0) + (post.num_comments.getD 0)) 1 : ℤ) : ℝ) + 1) * 2 +
      (if 60 ≤ (cleanText (post.selftext.getD "")).length then (1 : ℝ) else 0) +
      (if hasNmsContext post then (2 : ℝ) else 0) -
      (if 0 < countKeywordHits (cleanText (post.title.getD "")) META_TITLE_KEYWORDS ∧
          queryTokens.any (fun token => META_TITLE_KEYWORDS.contains token) = false
        then (4 : ℝ) else 0) ∧
    scoreRedditPost {} [] type = Real.logb 10 2 * 2 :=
  ⟨rfl, scoreRedditPost_zeroPost type⟩

/-! ### Claim C2 -/

/-- Claim C2 (counterexample): with the two-token query
    `["radiant", "heart"]` (minimum coverage 1), a scored post with no
    query-token hit in its title, overlap `2 = minimum coverage + 1` and
    quality score exactly 7 satisfies every condition of the claim, yet the
    filter rejects it: line 716 conjoins `hasTitleHit` unconditionally. -/
theorem claim_c2_counterexample :
    minCoverage (["radiant", "heart"] : List String).length + 1 ≤ 2 ∧
    minCoverage (["radiant", "heart"] : List String).length ≤ 2 ∧
    admitsPost ["radiant", "heart"]
      { post := {}, qualityScore := 7, overlapTitle := 0, overlap := 2 } = false := by
  refine ⟨by decide, by decide, ?_⟩
  simp only [admitsPost]
  norm_num [minCoverage]

/-- Claim C2 (amended): for queries of at least two tokens the title-hit
    requirement cannot be met by body coverage instead: a scored post with
    no query-token hit in its title is rejected by the coverage filter
    regardless of its overlap and quality score. -/
theorem claim_c2_amended (queryTokens : List String) (item : ScoredPost)
    (h2 : 2 ≤ queryTokens.length) (h0 : item.overlapTitle = 0) :
    admitsPost queryTokens item = false := by
  simp only [admitsPost]
  rw [if_neg (show ¬queryTokens.length = 0 by omega),
    if_neg (show ¬queryTokens.length = 1 by omega), h0]
  simp

/-- Witness for the amended C2 at a concrete two-token query and post. -/
theorem claim_c2_amended_witness :
    2 ≤ (["radiant", "heart"] : List String).length ∧
    admitsPost ["radiant", "heart"]
      { post := {}, qualityScore := 9, overlapTitle := 0, overlap := 2 } = false :=
  ⟨by decide, claim_c2_amended ["radiant", "heart"]
    { post := {}, qualityScore := 9, overlapTitle := 0, overlap := 2 } (by decide) rfl⟩

/-! ### Claim C6 -/

/-- Claim C6 (counterexample): for a query whose tokenization is empty
    (the live tokenizer drops one-character tokens, e.g. query `a`), the
    filter admits every post regardless of quality; a quality score of 6.99
    is admitted, so "admitted only if quality ≥ 7" fails as stated. -/
theorem claim_c6_counterexample :
    tokenizeLive "a" = [] ∧
    admitsPost (tokenizeLive "a")
      { post := {}, qualityScore := 699 / 100, overlapTitle := 1, overlap := 1 } = true ∧
    (699 / 100 : ℝ) < 7 := by
  refine ⟨by decide, ?_, by norm_num⟩
  rw [(by decide : tokenizeLive "a" = ([] : List String))]
  simp [admitsPost]

/-- Claim C6 (amended): provided the query yields at least one token, a
    scored post is admitted only if its quality score is at least 7; for a
    one-token query, admission is equivalent to a title hit plus the
    quality threshold (no body-coverage requirement), and the boundary
    behaves as claimed: 6.99 is rejected and 7.0 admitted with all other
    inputs held constant. -/
theorem claim_c6_amended :
    (∀ (queryTokens : List String) (item : ScoredPost), queryTokens ≠ [] →
      admitsPost queryTokens item = true → (7 : ℝ) ≤ item.qualityScore) ∧
    (∀ (queryTokens : List String) (item : ScoredPost), queryTokens.length = 1 →
      (admitsPost queryTokens item = true ↔
        (1 ≤ item.overlapTitle ∧ (7 : ℝ) ≤ item.qualityScore))) ∧
    admitsPost ["heart"]
      { post := {}, qualityScore := 699 / 100, overlapTitle := 1, overlap := 1 } = false ∧
    admitsPost ["heart"]
      { post := {}, qualityScore := 7, overlapTitle := 1, overlap := 1 } = true := by
  have hlen1 : ∀ (queryTokens : List String) (item : ScoredPost),
      queryTokens.length = 1 →
      (admitsPost queryTokens item = true ↔
        (1 ≤ item.overlapTitle ∧ (7 : ℝ) ≤ item.qualityScore)) := by
    intro queryTokens item h1
    simp only [admitsPost]
    rw [if_neg (show ¬queryTokens.length = 0 by omega), if_pos h1]
    simp
  refine ⟨?_, hlen1, ?_, ?_⟩
  · intro queryTokens item hne hadm
    simp only [admitsPost] at hadm
    rw [if_neg (show ¬queryTokens.length = 0 by
      simpa using fun h => hne (List.length_eq_zero.mp h))] at hadm
    by_cases h1 : queryTokens.length = 1
    · rw [if_pos h1] at hadm
      simp only [Bool.and_eq_true, decide_eq_true_eq] at hadm
      exact hadm.2
    · rw [if_neg h1] at hadm
      simp only [Bool.and_eq_true, decide_eq_true_eq] at hadm
      exact hadm.1.2
  · rw [Bool.eq_false_iff, Ne, hlen1 ["heart"] _ (by decide)]
    norm_num
  · rw [hlen1 ["heart"] _ (by decide)]
    norm_num

/-- Witness for the amended C6: the admitted boundary post has quality
    exactly 7, and the only-if direction recovers `7 ≤ 7` from it. -/
theorem claim_c6_amended_witness :
    (["heart"] : List String) ≠ [] ∧ (7 : ℝ) ≤ (7 : ℝ) :=
  ⟨by decide, claim_c6_amended.1 ["heart"]
    { post := {}, qualityScore := 7, overlapTitle := 1, overlap := 1 }
    (by decide) claim_c6_amended.2.2.2⟩

/-! ### Claim C7 -/

instance : IsTotal (String × ℕ) (fun a b => b.2 ≤ a.2) :=
  ⟨fun a b => Nat.le_total b.2 a.2⟩

instance : IsTrans (String × ℕ) (fun a b => b.2 ≤ a.2) :=
  ⟨fun _ _ _ h1 h2 => le_trans h2 h1⟩

theorem mem_filterIdx {α : Type} {p : α → ℕ → Bool} :
    ∀ {l : List α} {i : ℕ} {x : α}, x ∈ filterIdx p i l → x ∈ l := by
  intro l
  induction l with
  | nil => intro i x hx; simp [filterIdx] at hx
  | cons y ys ih =>
    intro i x hx
    rw [filterIdx] at hx
    split at hx
    · rcases List.mem_cons.mp hx with rfl | hx'
      · exact List.mem_cons_self _ _
      · exact List.mem_cons_of_mem _ (ih hx')
    · exact List.mem_cons_of_mem _ (ih hx)

/-- In a list sorted descending by score, the indexed filter of
    `pickBestSentences` keeps only positive-scoring entries as long as at
    least `count` positive entries exist. -/
theorem filterIdx_pos {count : ℕ} :
    ∀ (l : List (String × ℕ)) (i : ℕ),
      List.Pairwise (fun a b => b.2 ≤ a.2) l →
      count ≤ i + l.countP (fun x => decide (0 < x.2)) →
      ∀ x ∈ filterIdx (fun item index => decide (0 < item.2) || decide (index < count)) i l,
        0 < x.2 := by
  intro l
  induction l with
  | nil => intro i _ _ x hx; simp [filterIdx] at hx
  | cons y ys ih =>
    intro i hpair hcnt x hx
    by_cases hy : 0 < y.2
    · have hcnt' : count ≤ (i + 1) + ys.countP (fun x => decide (0 < x.2)) := by
        rw [List.countP_cons] at hcnt
        have hdy : decide (0 < y.2) = true := decide_eq_true hy
        simp only [hdy, if_true] at hcnt
        omega
      rw [filterIdx] at hx
      split at hx
      · rcases List.mem_cons.mp hx with rfl | hx'
        · exact hy
        · exact ih (i + 1) (List.pairwise_cons.mp hpair).2 hcnt' x hx'
      · exact ih (i + 1) (List.pairwise_cons.mp hpair).2 hcnt' x hx
    · have hy0 : y.2 = 0 := Nat.eq_zero_of_not_pos hy
      have hys0 : ys.countP (fun x => decide (0 < x.2)) = 0 := by
        apply List.countP_eq_zero.mpr
        intro z hz
        have hzy : z.2 ≤ y.2 := (List.pairwise_cons.mp hpair).1 z hz
        have : z.2 = 0 := Nat.le_zero.mp (hy0 ▸ hzy)
        simp [this]
      have hci : count ≤ i := by
        rw [List.countP_cons] at hcnt
        have hdy : decide (0 < y.2) = false := decide_eq_false hy
        rw [hdy, if_neg (by simp : ¬false = true)] at hcnt
        omega
      have hpy : (decide (0 < y.2) || decide (i < count)) = false := by
        simp [hy0]
        omega
      rw [filterIdx, if_neg (by simp [hpy])] at hx
      exact ih (i + 1) (List.pairwise_cons.mp hpair).2 (by omega) x hx

/-- Claim C7 (confirmed): `pickBestSentences` always returns a non-empty
    list of at most `count` sentences: the fixed fallback exactly when the
    input is empty, otherwise input sentences; and when at least `count`
    sentences score above zero, every returned sentence scores above zero
    (zero-scoring sentences appear only as backfill). -/
theorem claim_c7 (sentences : List String) (keywordGroups : List (List String))
    (fallback : String) (count : ℕ) (hc : 0 < count) :
    pickBestSentences sentences keywordGroups fallback count ≠ [] ∧
    (pickBestSentences sentences keywordGroups fallback count).length ≤ count ∧
    (sentences = [] →
      pickBestSentences sentences keywordGroups fallback count = [fallback]) ∧
    (∀ s ∈ pickBestSentences sentences keywordGroups fallback count,
      s ∈ sentences ∨ s = fallback) ∧
    (count ≤ sentences.countP (fun s => decide (0 < sentenceScore keywordGroups s)) →
      ∀ s ∈ pickBestSentences sentences keywordGroups fallback count,
        0 < sentenceScore keywordGroups s) := by
  set scored := sentences.map (fun s => (s, sentenceScore keywordGroups s)) with hscored
  set sorted := scored.insertionSort (fun a b => b.2 ≤ a.2) with hsortedDef
  set kept := filterIdx
    (fun item index => decide (0 < item.2) || decide (index < count)) 0 sorted with hkeptDef
  set ranked := (kept.take count).map Prod.fst with hrankedDef
  have hpb : pickBestSentences sentences keywordGroups fallback count =
      if ranked.isEmpty then [fallback] else ranked := rfl
  have hperm : sorted.Perm scored := List.perm_insertionSort _ _
  have hsort : List.Pairwise (fun a b : String × ℕ => b.2 ≤ a.2) sorted :=
    List.sorted_insertionSort _ _
  by_cases hsen : sentences = []
  · subst hsen
    have hr : ranked = [] := by
      have hs0 : sorted = [] := by
        have := hperm.length_eq
        simp only [hscored, List.map_nil, List.length_nil] at this
        exact List.eq_nil_of_length_eq_zero this
      rw [hrankedDef, hkeptDef, hs0]
      simp [filterIdx]
    rw [hpb, hr]
    refine ⟨by simp, by simpa using hc, fun _ => by simp, ?_, ?_⟩
    · intro s hs
      simp at hs
      exact Or.inr hs
    · intro hcnt
      simp at hcnt
      omega
  · have hne : ranked ≠ [] := by
      obtain ⟨x, rest, hx⟩ : ∃ x rest, sorted = x :: rest := by
        rcases hso : sorted with - | ⟨x, rest⟩
        · exfalso
          have := hperm.length_eq
          rw [hso] at this
          simp only [List.length_nil, hscored, List.length_map] at this
          exact hsen (List.eq_nil_of_length_eq_zero this.symm)
        · exact ⟨x, rest, rfl⟩
      obtain ⟨m, rfl⟩ : ∃ m, count = m + 1 := ⟨count - 1, by omega⟩
      have hp0 : (decide (0 < x.2) || decide ((0 : ℕ) < m + 1)) = true := by
        simp
      rw [hrankedDef, hkeptDef, hx, filterIdx, if_pos hp0, List.take_succ_cons,
        List.map_cons]
      exact List.cons_ne_nil _ _
    have hfe : ranked.isEmpty = false := by
      rcases hrr : ranked with - | _
      · exact absurd hrr hne
      · rfl
    rw [hpb, hfe]
    rw [if_neg (by simp)]
    have hmemchain : ∀ s ∈ ranked, ∃ x, x ∈ kept ∧ x ∈ scored ∧ x.1 = s ∧
        x.2 = sentenceScore keywordGroups s := by
      intro s hs
      obtain ⟨x, hxt, rfl⟩ := List.mem_map.mp hs
      have hxk : x ∈ kept := List.take_subset _ _ hxt
      have hxs : x ∈ scored := hperm.mem_iff.mp (mem_filterIdx hxk)
      obtain ⟨s', -, heq⟩ := List.mem_map.mp hxs
      refine ⟨x, hxk, hxs, rfl, ?_⟩
      rw [← heq]
    refine ⟨hne, ?_, fun h => absurd h hsen, ?_, ?_⟩
    · rw [hrankedDef]
      rw [List.length_map]
      exact le_trans (List.length_take_le _ _) (le_refl _)
    · intro s hs
      obtain ⟨x, -, hxs, hx1, -⟩ := hmemchain s hs
      obtain ⟨s', hs', heq⟩ := List.mem_map.mp hxs
      left
      rw [← hx1, ← heq]
      exact hs'
    · intro hcnt s hs
      obtain ⟨x, hxk, -, -, hx2⟩ := hmemchain s hs
      have hcnt' : count ≤ 0 + sorted.countP (fun x => decide (0 < x.2)) := by
        rw [Nat.zero_add, hperm.countP_eq, hscored, List.countP_map]
        exact hcnt
      rw [← hx2]
      exact filterIdx_pos sorted 0 hsort hcnt' x hxk

/-! ### Claim C5 -/

instance : IsTotal ScoredPost (fun left right => right.qualityScore ≤ left.qualityScore) :=
  ⟨fun a b => le_total b.qualityScore a.qualityScore⟩

instance : IsTrans ScoredPost (fun left right => right.qualityScore ≤ left.qualityScore) :=
  ⟨fun _ _ _ h1 h2 => le_trans h2 h1⟩

theorem str_len_zero {s : String} : s.length = 0 ↔ s = "" := by
  constructor
  · intro h
    obtain ⟨data⟩ := s
    have hd : data = [] := List.eq_nil_of_length_eq_zero h
    rw [hd]
  · intro h
    rw [h]
    rfl

theorem dedupGo_sublist (all : List ScoredPost) :
    ∀ (xs : List ScoredPost) (i : ℕ), List.Sublist (dedupGo all i xs) xs := by
  intro xs
  induction xs with
  | nil => intro i; simp [dedupGo]
  | cons x xs' ih =>
    intro i
    rw [dedupGo]
    split
    · exact List.Sublist.cons₂ x (ih (i + 1))
    · exact List.Sublist.cons x (ih (i + 1))

theorem dedupGo_mem (all : List ScoredPost) :
    ∀ (xs : List ScoredPost) (i : ℕ) (y : ScoredPost), y ∈ dedupGo all i xs →
      ∃ k, i ≤ k ∧ keepInDedup all k y = true ∧ xs.get? (k - i) = some y := by
  intro xs
  induction xs with
  | nil => intro i y hy; simp [dedupGo] at hy
  | cons x xs' ih =>
    intro i y hy
    rw [dedupGo] at hy
    split at hy
    · rcases List.mem_cons.mp hy with rfl | hy'
      · refine ⟨i, le_refl i, by assumption, ?_⟩
        simp
      · obtain ⟨k, hk1, hk2, hk3⟩ := ih (i + 1) y hy'
        refine ⟨k, le_trans (Nat.le_succ i) hk1, hk2, ?_⟩
        have : k - i = (k - (i + 1)) + 1 := by omega
        rw [this]
        simpa using hk3
    · obtain ⟨k, hk1, hk2, hk3⟩ := ih (i + 1) y hy
      refine ⟨k, le_trans (Nat.le_succ i) hk1, hk2, ?_⟩
      have : k - i = (k - (i + 1)) + 1 := by omega
      rw [this]
      simpa using hk3

theorem keepInDedup_empty_title {all : List ScoredPost} {k : ℕ} {y : ScoredPost}
    (hy : normTitle y = "") (h : keepInDedup all k y = true) : k = 0 := by
  unfold keepInDedup at h
  rw [if_pos (by rw [str_len_zero, hy])] at h
  exact of_decide_eq_true h

theorem keepInDedup_findIdx {all : List ScoredPost} {k : ℕ} {y : ScoredPost}
    (hy : ¬normTitle y = "") (h : keepInDedup all k y = true) :
    all.findIdx (fun entry => decide (normTitle entry = normTitle y)) = k := by
  unfold keepInDedup at h
  rw [if_neg (by rw [str_len_zero]; exact hy)] at h
  exact of_decide_eq_true h

theorem dedupGo_pairwise (all : List ScoredPost) :
    ∀ (xs : List ScoredPost) (i : ℕ),
      List.Pairwise (fun a b => normTitle a ≠ normTitle b) (dedupGo all i xs) := by
  intro xs
  induction xs with
  | nil => intro i; simp [dedupGo]
  | cons x xs' ih =>
    intro i
    rw [dedupGo]
    split
    · refine List.pairwise_cons.mpr ⟨?_, ih (i + 1)⟩
      intro b hb heq
      obtain ⟨k, hk1, hk2, -⟩ := dedupGo_mem all xs' (i + 1) b hb
      by_cases hx : normTitle x = ""
      · have hb0 : normTitle b = "" := by rw [← heq, hx]
        have hi0 : i = 0 := keepInDedup_empty_title hx (by assumption)
        have hk0 : k = 0 := keepInDedup_empty_title hb0 hk2
        omega
      · have hbne : ¬normTitle b = "" := by rw [← heq]; exact hx
        have hfi : all.findIdx (fun entry => decide (normTitle entry = normTitle x)) = i :=
          keepInDedup_findIdx hx (by assumption)
        have hfk : all.findIdx (fun entry => decide (normTitle entry = normTitle b)) = k :=
          keepInDedup_findIdx hbne hk2
        rw [← heq] at hfk
        omega
    · exact ih (i + 1)

theorem findIdx_min {α : Type} (p : α → Bool) :
    ∀ (l : List α) (m : ℕ) (x : α), l.get? m = some x → p x = true →
      l.findIdx p ≤ m := by
  intro l
  induction l with
  | nil => intro m x hm; simp at hm
  | cons y ys ih =>
    intro m x hm hp
    rw [List.findIdx_cons]
    by_cases hy : p y = true
    · simp [hy]
    · have hy' : p y = false := bool_eq_false hy
      rw [hy']
      simp only [Bool.false_eq_true, if_false, cond_false]
      rcases m with - | m'
      · simp only [List.get?_cons_zero, Option.some.injEq] at hm
        rw [hm] at hy'
        rw [hy'] at hp
        cases hp
      · have := ih m' x (by simpa using hm) hp
        omega

theorem sorted_desc_le {l : List ScoredPost}
    (hs : List.Pairwise (fun a b => b.qualityScore ≤ a.qualityScore) l)
    {k m : ℕ} {y x : ScoredPost} (hk : l.get? k = some y) (hm : l.get? m = some x)
    (hkm : k ≤ m) : x.qualityScore ≤ y.qualityScore := by
  obtain ⟨hk', hky⟩ := List.get?_eq_some.mp hk
  obtain ⟨hm', hmx⟩ := List.get?_eq_some.mp hm
  rcases Nat.eq_or_lt_of_le hkm with rfl | hlt
  · rw [← hky, ← hmx]
  · rw [← hky, ← hmx]
    exact List.pairwise_iff_get.mp hs ⟨k, hk'⟩ ⟨m, hm'⟩ hlt

/-- Claim C5 (confirmed): the retained live results are at most 8, appear in
    descending quality-score order, carry pairwise distinct normalized
    titles, come from the admitted items, dominate the score of every
    same-title admitted item (the first occurrence in the stable descending
    sort is the higher-scoring one), and an empty-title item is retained
    only as the very first item of the sorted list. -/
theorem claim_c5 (items : List ScoredPost) :
    (liveSelect items).length ≤ 8 ∧
    List.Pairwise (fun a b => b.qualityScore ≤ a.qualityScore) (liveSelect items) ∧
    List.Pairwise (fun a b => normTitle a ≠ normTitle b) (liveSelect items) ∧
    (∀ y ∈ liveSelect items, y ∈ items) ∧
    (∀ x ∈ items, ∀ y ∈ liveSelect items, normTitle x = normTitle y →
      x.qualityScore ≤ y.qualityScore) ∧
    (∀ y ∈ liveSelect items, normTitle y = "" →
      (items.insertionSort
        (fun left right => right.qualityScore ≤ left.qualityScore)).head? = some y) := by
  set sorted := items.insertionSort
    (fun left right => right.qualityScore ≤ left.qualityScore) with hsortedDef
  have hperm : sorted.Perm items := List.perm_insertionSort _ _
  have hsort : List.Pairwise
      (fun a b : ScoredPost => b.qualityScore ≤ a.qualityScore) sorted :=
    List.sorted_insertionSort _ _
  have hls : liveSelect items = (dedupGo sorted 0 sorted).take 8 := rfl
  have hsub : List.Sublist (liveSelect items) sorted := by
    rw [hls]
    exact (List.take_sublist _ _).trans (dedupGo_sublist sorted sorted 0)
  have hmemdedup : ∀ y ∈ liveSelect items, ∃ k, keepInDedup sorted k y = true ∧
      sorted.get? k = some y := by
    intro y hy
    rw [hls] at hy
    obtain ⟨k, -, hk2, hk3⟩ := dedupGo_mem sorted sorted 0 y (List.take_subset _ _ hy)
    refine ⟨k, hk2, ?_⟩
    simpa using hk3
  refine ⟨?_, ?_, ?_, ?_, ?_, ?_⟩
  · rw [hls]
    exact List.length_take_le _ _
  · exact hsort.sublist hsub
  · rw [hls]
    exact (dedupGo_pairwise sorted sorted 0).sublist (List.take_sublist _ _)
  · intro y hy
    exact hperm.mem_iff.mp (hsub.subset hy)
  · intro x hx y hy heq
    obtain ⟨k, hkeep, hget⟩ := hmemdedup y hy
    obtain ⟨⟨m, hm⟩, hmx⟩ := List.mem_iff_get.mp (hperm.mem_iff.mpr hx)
    have hmget : sorted.get? m = some x := by
      rw [List.get?_eq_get hm, hmx]
    by_cases hyt : normTitle y = ""
    · have hk0 : k = 0 := keepInDedup_empty_title hyt hkeep
      exact sorted_desc_le hsort (hk0 ▸ hget) hmget (by omega)
    · have hfi := keepInDedup_findIdx hyt hkeep
      have hkm : k ≤ m := by
        rw [← hfi]
        exact findIdx_min _ sorted m x hmget (by simp [heq])
      exact sorted_desc_le hsort hget hmget hkm
  · intro y hy hyt
    obtain ⟨k, hkeep, hget⟩ := hmemdedup y hy
    have hk0 : k = 0 := keepInDedup_empty_title hyt hkeep
    rw [← List.get?_zero, ← hk0]
    exact hget

/-- Witness for C7 at a concrete sentence list. -/
theorem claim_c7_witness :
    (0 : ℕ) < 2 ∧
      pickBestSentences ["tip this", "other"] [["tip"]] "FB" 2 ≠ [] :=
  ⟨by decide, (claim_c7 ["tip this", "other"] [["tip"]] "FB" 2 (by decide)).1⟩

/-! ### Claim C8 -/

/-- Every knowledge entry's title tokenizes to at most two tokens. -/
theorem localKnowledge_title_tokens :
    ∀ e ∈ LOCAL_KNOWLEDGE, (tokenizeCurated e.title).length ≤ 2 := by
  decide

/-- Claim C8 (confirmed): when the normalized query equals an entry's
    normalized title, that entry scores at least 120 (exact-title bonus)
    while an entry with no exact-title match and no alias-substring match
    can only collect 12 per query token; titles tokenize to at most two
    tokens, so its score is at most 24. -/
theorem claim_c8 (query : String) (e1 e2 : KnowledgeEntry)
    (he1 : e1 ∈ LOCAL_KNOWLEDGE) (he2 : e2 ∈ LOCAL_KNOWLEDGE)
    (hq : normalizeForMatch query = normalizeForMatch e1.title)
    (hne : ¬normalizeForMatch e2.title = normalizeForMatch query)
    (hal : ∀ a ∈ e2.aliases,
      strIncludes (normalizeForMatch query) (normalizeForMatch a) = false) :
    scoreEntry e2 query < scoreEntry e1 query := by
  have ht : tokenizeCurated query = tokenizeCurated e1.title := by
    unfold tokenizeCurated
    rw [hq]
  have h1ge : 120 ≤ scoreEntry e1 query := by
    simp only [scoreEntry]
    rw [if_pos hq.symm]
    omega
  have h2le : scoreEntry e2 query ≤ 24 := by
    simp only [scoreEntry]
    rw [if_neg hne]
    have hz : (e2.aliases.map (fun aliasPhrase =>
        if strIncludes (normalizeForMatch query) (normalizeForMatch aliasPhrase)
        then 80 else (0 : ℕ))).sum = 0 := by
      apply List.sum_eq_zero
      intro x hx
      obtain ⟨a, ha, rfl⟩ := List.mem_map.mp hx
      rw [if_neg (by simp [hal a ha])]
    rw [hz]
    have hcount : (tokenizeCurated query).countP
        (fun token => (tokenizeCurated (e2.title ++ " " ++ joinSep " " e2.aliases ++ " " ++
          e2.whereToFind ++ " " ++ e2.howToUse ++ " " ++
          joinSep " " e2.tips)).contains token) ≤ (tokenizeCurated query).length :=
      List.countP_le_length _
    have hlen : (tokenizeCurated query).length ≤ 2 := by
      rw [ht]
      exact localKnowledge_title_tokens e1 he1
    omega
  omega

/-- Witness for C8: the query `Radiant Heart` against the Radiant Heart
    entry (index 0) and the Oxygen entry (index 2). -/
theorem claim_c8_witness :
    LOCAL_KNOWLEDGE.get ⟨0, by decide⟩ ∈ LOCAL_KNOWLEDGE ∧
    LOCAL_KNOWLEDGE.get ⟨2, by decide⟩ ∈ LOCAL_KNOWLEDGE ∧
    normalizeForMatch "Radiant Heart" =
      normalizeForMatch (LOCAL_KNOWLEDGE.get ⟨0, by decide⟩).title ∧
    ¬normalizeForMatch (LOCAL_KNOWLEDGE.get ⟨2, by decide⟩).title =
      normalizeForMatch "Radiant Heart" ∧
    (∀ a ∈ (LOCAL_KNOWLEDGE.get ⟨2, by decide⟩).aliases,
      strIncludes (normalizeForMatch "Radiant Heart") (normalizeForMatch a) = false) ∧
    scoreEntry (LOCAL_KNOWLEDGE.get ⟨2, by decide⟩) "Radiant Heart" <
      scoreEntry (LOCAL_KNOWLEDGE.get ⟨0, by decide⟩) "Radiant Heart" :=
  ⟨by decide, by decide, by decide, by decide, by decide,
    claim_c8 "Radiant Heart" _ _ (by decide) (by decide) (by decide) (by decide)
      (by decide)⟩

/-! ### Claim C9 -/

/-- Claim C9 (confirmed): a follow-up question whose normalized form
    contains `where`, `find` or `location` is answered by the location
    branch (the first branch of the cascade) and returns the card's
    where-to-find line, regardless of any tip vocabulary also present. -/
theorem claim_c9 (result : SearchResult) (question : String)
    (history : List ChatMessage)
    (h : strIncludes (normalizeForMatch question) "where" = true ∨
      strIncludes (normalizeForMatch question) "find" = true ∨
      strIncludes (normalizeForMatch question) "location" = true) :
    buildFollowUpAnswer result question history =
      "Where-to-find summary:\n" ++
        (((splitOnChar '\n' result.details.data).map (fun t => (⟨t⟩ : String))).headD "") := by
  have hc : (strIncludes (normalizeForMatch question) "where" ||
      strIncludes (normalizeForMatch question) "find" ||
      strIncludes (normalizeForMatch question) "location") = true := by
    rcases h with h | h | h <;> simp [h]
  simp only [buildFollowUpAnswer, buildFollowUpCore]
  rw [if_pos hc]

/-- Witness for C9 at the question of the claim (it contains both location
    and tip vocabulary) on a concrete card. -/
theorem claim_c9_witness :
    strIncludes (normalizeForMatch "where is the best tip to find this") "where" = true ∧
    buildFollowUpAnswer
      { id := "x", title := "T", summary := "S",
        details := "Where to find: here\nHow to use: thus", source := "src",
        references := [], redditNotes := [], faq := [] }
      "where is the best tip to find this" [] =
      "Where-to-find summary:\nWhere to find: here" :=
  ⟨by decide,
    (claim_c9
      { id := "x", title := "T", summary := "S",
        details := "Where to find: here\nHow to use: thus", source := "src",
        references := [], redditNotes := [], faq := [] }
      "where is the best tip to find this" [] (Or.inl (by decide))).trans (by decide)⟩

/-! ### Claim C10 -/

theorem buildFollowUpCore_const (result : SearchResult) (question : String)
    (h : takesFallback result question = false) (b1 b2 : Bool) :
    buildFollowUpCore result question b1 = buildFollowUpCore result question b2 := by
  simp only [buildFollowUpCore, takesFallback] at h ⊢
  by_cases hc1 : (strIncludes (normalizeForMatch question) "where" ||
      strIncludes (normalizeForMatch question) "find" ||
      strIncludes (normalizeForMatch question) "location") = true
  · rw [if_pos hc1, if_pos hc1]
  · rw [if_neg hc1, if_neg hc1]
    rw [if_neg hc1] at h
    by_cases hc2 : (strIncludes (normalizeForMatch question) "how" ||
        strIncludes (normalizeForMatch question) "use" ||
        strIncludes (normalizeForMatch question) "craft" ||
        strIncludes (normalizeForMatch question) "build") = true
    · rw [if_pos hc2, if_pos hc2]
    · rw [if_neg hc2, if_neg hc2]
      rw [if_neg hc2] at h
      by_cases hc3 : ((strIncludes (normalizeForMatch question) "tip" ||
          strIncludes (normalizeForMatch question) "best" ||
          strIncludes (normalizeForMatch question) "fast" ||
          strIncludes (normalizeForMatch question) "efficient") &&
          !((((splitOnChar '\n' result.details.data).map
            (fun t => (⟨t⟩ : String))).filter
              (fun line => "- ".data.isPrefixOf line.data)).take 2).isEmpty) = true
      · rw [if_pos hc3, if_pos hc3]
      · rw [if_neg hc3, if_neg hc3]
        rw [if_neg hc3] at h
        by_cases hc4 : strIncludes (normalizeForMatch question) "reddit" = true
        · rw [if_pos hc4, if_pos hc4]
        · rw [if_neg hc4, if_neg hc4]
          rw [if_neg hc4] at h
          by_cases hc5 : (strIncludes (normalizeForMatch question) "video" ||
              strIncludes (normalizeForMatch question) "watch") = true
          · rw [if_pos hc5, if_pos hc5]
          · rw [if_neg hc5, if_neg hc5]
            rw [if_neg hc5] at h
            cases hbf : ((result.faq.map
                (fun item => (item, keywordOverlap question item.question))).insertionSort
                (fun a b => b.2 ≤ a.2)).head? with
            | none =>
              rw [hbf] at h
              simp at h
            | some best =>
              rw [hbf] at h
              have hz : ¬best.2 = 0 := by simpa using h
              have hpos : 0 < best.2 := Nat.pos_of_ne_zero hz
              simp [hpos]

/-- Claim C10 (confirmed): the follow-up dispatcher reads the conversation
    history only through `history.some(m => m.role === "user")`: two
    histories agreeing on that bit produce identical answers for every card
    and question; and whenever a keyword branch (location, how, tip, reddit,
    video) or an FAQ match produces the answer — that is, the fallback block,
    the only reader of the history bit, is not taken — the answer is
    identical across any two histories whatsoever. -/
theorem claim_c10 (result : SearchResult) (question : String)
    (h1 h2 : List ChatMessage) :
    (h1.any (fun message => decide (message.role = ChatRole.user)) =
        h2.any (fun message => decide (message.role = ChatRole.user)) →
      buildFollowUpAnswer result question h1 = buildFollowUpAnswer result question h2) ∧
    (takesFallback result question = false →
      buildFollowUpAnswer result question h1 = buildFollowUpAnswer result question h2) := by
  constructor
  · intro h
    unfold buildFollowUpAnswer
    rw [h]
  · intro h
    unfold buildFollowUpAnswer
    exact buildFollowUpCore_const result question h _ _

/-- Witness for C10: a how-question takes the how keyword branch, so its
    answer agrees between a history with a user turn and an empty history
    (histories that disagree on the user-turn bit); and on a fallback
    question, a history with one user turn and a history with an assistant
    turn followed by a user turn (agreeing on the bit) also agree. -/
theorem claim_c10_witness :
    takesFallback
      { id := "x", title := "T", summary := "S", details := "D", source := "src",
        references := [], redditNotes := [], faq := [] } "how" = false ∧
    buildFollowUpAnswer
      { id := "x", title := "T", summary := "S", details := "D", source := "src",
        references := [], redditNotes := [], faq := [] } "how"
      [⟨ChatRole.user, "a"⟩] =
    buildFollowUpAnswer
      { id := "x", title := "T", summary := "S", details := "D", source := "src",
        references := [], redditNotes := [], faq := [] } "how" [] ∧
    buildFollowUpAnswer
      { id := "x", title := "T", summary := "S", details := "D", source := "src",
        references := [], redditNotes := [], faq := [] } "why"
      [⟨ChatRole.user, "a"⟩] =
    buildFollowUpAnswer
      { id := "x", title := "T", summary := "S", details := "D", source := "src",
        references := [], redditNotes := [], faq := [] } "why"
      [⟨ChatRole.assistant, "x"⟩, ⟨ChatRole.user, "b"⟩] :=
  ⟨by decide,
    (claim_c10
      { id := "x", title := "T", summary := "S", details := "D", source := "src",
        references := [], redditNotes := [], faq := [] } "how"
      [⟨ChatRole.user, "a"⟩] []).2 (by decide),
    (claim_c10
      { id := "x", title := "T", summary := "S", details := "D", source := "src",
        references := [], redditNotes := [], faq := [] } "why"
      [⟨ChatRole.user, "a"⟩] [⟨ChatRole.assistant, "x"⟩, ⟨ChatRole.user, "b"⟩]).1
      (by decide)⟩

end NMS
